import Mathlib

/-!
Verification development for the markdown <-> Google Docs conversion core of
the google-docs-mcp repository.

Forward direction: `src/markdown-transformer/markdownToDocsRequests.ts`
(`convertMarkdownToRequests` and its helpers) is embedded below as
`convertTokensToRequests` over the token stream produced by the external
markdown-it tokenizer (the tokenizer itself is an external collaborator and is
not part of the core; concrete token streams used in examples are the
tokenizations markdown-it produces for the quoted markdown inputs).

Reverse direction: `src/markdown-transformer/docsToMarkdown.ts`
(`docsJsonToMarkdown` and its helpers).

Conventions of the embedding:
* JavaScript strings are modelled by Lean `String`; offsets and `.length` are
  character counts (JS counts UTF-16 units, which coincides for all
  basic-multilingual-plane text; no claim involves supplementary-plane
  characters).
* JS arrays used as stacks (push/pop/peek at the END of the array) are
  modelled as Lean lists with the HEAD as the top of the stack; arrays used as
  ordered output sequences (request lists, ranges, pending items) keep the
  source's append-at-end order.
* Fallible code is modelled with `Except`.
* String primitives whose Lean library versions do not reduce in the kernel
  are re-implemented structurally on `List Char` (`strEndsWith`, `strSplitNl`,
  `jsTrim`, ...), each mirroring the corresponding JS operation.
-/

/-! ## JS string primitives -/

/-- The JavaScript `\s` / `String.prototype.trim` whitespace class
(codepoints of the WhiteSpace and LineTerminator productions). -/
def jsWs (c : Char) : Bool :=
  let n := c.toNat
  (9 ≤ n && n ≤ 13) || n = 32 || n = 160 || n = 5760 ||
    (8192 ≤ n && n ≤ 8202) || n = 8232 || n = 8233 || n = 8239 ||
    n = 8287 || n = 12288 || n = 65279

/-- `suffix.isSuffixOf s` over characters: JS `s.endsWith(suffix)`. -/
def strEndsWith (s suffix : String) : Bool :=
  suffix.data.isSuffixOf s.data

/-- JS `s.slice(0, -1)`: drop the final character. -/
def strDropLast (s : String) : String :=
  ⟨s.data.dropLast⟩

/-- Substring search on character lists (JS `String.prototype.includes`). -/
def listInfix (sub : List Char) : List Char → Bool
  | [] => sub.isPrefixOf ([] : List Char)
  | c :: t => sub.isPrefixOf (c :: t) || listInfix sub t

/-- JS `s.includes(sub)`. -/
def strContainsSub (s sub : String) : Bool :=
  listInfix sub.data s.data

/-- JS `s.split('\n')` (on character lists). `"".split('\n')` is `[""]`. -/
def splitCharsOnNl : List Char → List (List Char)
  | [] => [[]]
  | c :: cs =>
    let r := splitCharsOnNl cs
    if c = '\n' then [] :: r
    else
      match r with
      | h :: t => (c :: h) :: t
      | [] => [[c]]

/-- JS `s.split('\n')`. -/
def strSplitNl (s : String) : List String :=
  (splitCharsOnNl s.data).map (⟨·⟩)

/-- Drop trailing `jsWs` characters (structural form used by `jsTrim`). -/
def dropWhileEndWs : List Char → List Char
  | [] => []
  | c :: cs =>
    let r := dropWhileEndWs cs
    if r.isEmpty && jsWs c then [] else c :: r

/-- JS `s.trim()`. -/
def jsTrim (s : String) : String :=
  ⟨dropWhileEndWs (s.data.dropWhile jsWs)⟩

/-- JS `s.repeat(n)`. -/
def strRepeat (s : String) (n : Nat) : String :=
  String.join (List.replicate n s)

/-- JS `s.replace(/\n/g, ' ')`. -/
def replaceNlWithSpace (s : String) : String :=
  ⟨s.data.map (fun c => if c = '\n' then ' ' else c)⟩

/-- `true` iff every character of `s` is JS whitespace. -/
def isWsOnly (s : String) : Bool :=
  s.data.all jsWs

/-! ## Forward compiler: data model (markdownToDocsRequests.ts) -/

/-- markdown-it token stream consumed by the compiler (external Token Source).
`heading_open` carries the level `getHeadingLevel` extracts from the tag
(`0` standing for the `null` of a non-`h<digit>` tag); `link_open` carries the
resolved `href` attribute (`none` when absent); `fence` covers both the
`fence` and `code_block` token types (identical handling); `skipped` stands
for the table / blockquote structural tokens and the `default` branch, all of
which `processToken` ignores. -/
inductive Token where
  | heading_open (level : Nat)
  | heading_close
  | paragraph_open
  | paragraph_close
  | text (content : String)
  | code_inline (content : String)
  | strong_open
  | strong_close
  | em_open
  | em_close
  | s_open
  | s_close
  | link_open (href : Option String)
  | link_close
  | bullet_list_open
  | bullet_list_close
  | ordered_list_open
  | ordered_list_close
  | list_item_open
  | list_item_close
  | softbreak
  | hardbreak
  | inline (children : List Token)
  | fence (content : String)
  | hr
  | skipped
deriving Repr

/-- `FormattingState`: one partial style record on the formatting stack. -/
structure FormattingState where
  bold : Option Bool := none
  italic : Option Bool := none
  strikethrough : Option Bool := none
  link : Option String := none
  code : Option Bool := none
deriving Repr, DecidableEq

/-- The keys of `FormattingState` (TS `keyof FormattingState`). -/
inductive FormatKey where
  | bold
  | italic
  | strikethrough
  | link
  | code
deriving Repr, DecidableEq

/-- Whether a stack entry defines the given attribute (`!== undefined`). -/
def FormattingState.defines (s : FormattingState) : FormatKey → Bool
  | .bold => s.bold.isSome
  | .italic => s.italic.isSome
  | .strikethrough => s.strikethrough.isSome
  | .link => s.link.isSome
  | .code => s.code.isSome

/-- `TextRange`: an inline-formatted span. -/
structure TextRange where
  startIndex : Nat
  endIndex : Nat
  formatting : FormattingState
deriving Repr, DecidableEq

/-- `ParagraphRange`: a heading / title paragraph span. -/
structure ParagraphRange where
  startIndex : Nat
  endIndex : Nat
  namedStyleType : Option String := none
deriving Repr, DecidableEq

/-- `ListState`: one entry of the open-list stack. -/
structure ListState where
  type : Bool -- `true` = 'ordered', `false` = 'bullet'
  level : Nat
deriving Repr, DecidableEq

/-- The three bullet presets (distinct string enum values in the source). -/
inductive BulletPreset where
  | numberedDecimalAlphaRoman -- 'NUMBERED_DECIMAL_ALPHA_ROMAN'
  | bulletDiscCircleSquare -- 'BULLET_DISC_CIRCLE_SQUARE'
  | bulletCheckbox -- 'BULLET_CHECKBOX'
deriving Repr, DecidableEq

/-- `PendingListItem`. -/
structure PendingListItem where
  startIndex : Nat
  endIndex : Option Nat := none
  nestingLevel : Nat
  bulletPreset : BulletPreset
  taskPrefixProcessed : Bool
deriving Repr, DecidableEq

/-- Payload handed to `buildUpdateTextStyleRequest` (the `style` argument). -/
structure TextStylePayload where
  bold : Option Bool := none
  italic : Option Bool := none
  strikethrough : Option Bool := none
  fontFamily : Option String := none
  foregroundColor : Option String := none
  backgroundColor : Option String := none
  linkUrl : Option String := none
deriving Repr, DecidableEq

/-- Paragraph-style payloads appearing in `formatRequests`: either a
`namedStyleType` (built via `buildUpdateParagraphStyleRequest`), or the fixed
`borderBottom` treatment pushed inline for horizontal rules. -/
inductive ParagraphStylePayload where
  | namedStyle (styleType : String)
  | bottomBorder
deriving Repr, DecidableEq

/-- `docs_v1.Schema$Request`, restricted to the four request kinds this
compiler emits. Ranges carry `(startIndex, endIndex)` plus the optional
`tabId` attached when the compilation targets a tab. -/
inductive Request where
  | insertText (index : Nat) (tabId : Option String) (text : String)
  | updateTextStyle (startIndex endIndex : Nat) (tabId : Option String)
      (style : TextStylePayload)
  | updateParagraphStyle (startIndex endIndex : Nat) (tabId : Option String)
      (style : ParagraphStylePayload)
  | createParagraphBullets (startIndex endIndex : Nat) (tabId : Option String)
      (preset : BulletPreset)
deriving Repr, DecidableEq

/-- `ConversionContext`. -/
structure ConversionContext where
  currentIndex : Nat
  insertRequests : List Request := []
  formatRequests : List Request := []
  textRanges : List TextRange := []
  formattingStack : List FormattingState := []
  listStack : List ListState := []
  paragraphRanges : List ParagraphRange := []
  pendingListItems : List PendingListItem := []
  openListItemStack : List Nat := []
  hrRanges : List (Nat × Nat) := []
  tabId : Option String := none
  currentParagraphStart : Option Nat := none
  currentHeadingLevel : Option Nat := none
  titleConsumed : Bool := false
  firstHeadingAsTitle : Bool := false
deriving Repr, DecidableEq

/-- `MarkdownConversionError` (the single error class crossing the compiler
boundary) next to the other JS exceptions a runtime fault would raise; the
`catch` block of `convertMarkdownToRequests` distinguishes exactly these two
shapes. -/
inductive CompileException where
  | markdownConversionError (message : String)
  | otherException (message : String)
deriving Repr, DecidableEq

def CODE_FONT_FAMILY : String := "Roboto Mono"
def CODE_TEXT_HEX : String := "#188038"
def CODE_BACKGROUND_HEX : String := "#F1F3F4"

/-! ## Forward compiler: token handlers -/

/-- `insertText` (lines 470-481): push an `insertText` request at the cursor
and advance the cursor by the length of the text. The request carries the
context's `tabId` exactly when one is set (the JS code attaches the field
under an `if (context.tabId)` guard). -/
def insertText (text : String) (ctx : ConversionContext) : ConversionContext :=
  { ctx with
    insertRequests := ctx.insertRequests ++ [.insertText ctx.currentIndex ctx.tabId text]
    currentIndex := ctx.currentIndex + text.length }

/-- The text of the last `insertText` request, if any
(`context.insertRequests[length - 1]?.insertText?.text`). -/
def lastInsertText (ctx : ConversionContext) : Option String :=
  match ctx.insertRequests.getLast? with
  | some (.insertText _ _ t) => some t
  | _ => none

/-- `lastInsertEndsWithNewline` (lines 666-669); the `lastInsert &&` guard
makes an empty last insert (falsy in JS) yield `false`. -/
def lastInsertEndsWithNewline (ctx : ConversionContext) : Bool :=
  match lastInsertText ctx with
  | some t => t ≠ "" && strEndsWith t "\n"
  | none => false

/-- `lastInsertEndsWithDoubleNewline` (lines 671-674). -/
def lastInsertEndsWithDoubleNewline (ctx : ConversionContext) : Bool :=
  match lastInsertText ctx with
  | some t => t ≠ "" && strEndsWith t "\n\n"
  | none => false

/-- `mergeFormattingStack` (lines 485-495): per attribute the most recently
pushed defined value wins (the JS loop walks bottom-to-top overwriting; our
stack is head-first, so the first defined value from the head wins). -/
def mergeFormattingStack (stack : List FormattingState) : FormattingState :=
  { bold := stack.findSome? (·.bold)
    italic := stack.findSome? (·.italic)
    strikethrough := stack.findSome? (·.strikethrough)
    code := stack.findSome? (·.code)
    link := stack.findSome? (·.link) }

/-- `hasFormatting` (lines 497-505). -/
def hasFormatting (formatting : FormattingState) : Bool :=
  formatting.bold == some true || formatting.italic == some true ||
    formatting.strikethrough == some true || formatting.code == some true ||
    formatting.link.isSome

/-- Body of `popFormatting` (lines 507-514): remove the most recently pushed
entry defining the attribute, tolerating a stack where none does. -/
def popFirstDefining (key : FormatKey) : List FormattingState → List FormattingState
  | [] => []
  | s :: rest => if s.defines key then rest else s :: popFirstDefining key rest

/-- `popFormatting` (lines 507-514). -/
def popFormatting (ctx : ConversionContext) (key : FormatKey) : ConversionContext :=
  { ctx with formattingStack := popFirstDefining key ctx.formattingStack }

/-- `getCurrentOpenListItem` (lines 660-664). -/
def getCurrentOpenListItem (ctx : ConversionContext) : Option PendingListItem :=
  match ctx.openListItemStack with
  | [] => none
  | openIndex :: _ => ctx.pendingListItems[openIndex]?

/-- In the JS source `getCurrentOpenListItem` returns a live reference whose
fields the handlers mutate; here the same mutation is an update of
`pendingListItems` at the index on top of `openListItemStack`. -/
def modifyCurrentOpenListItem (ctx : ConversionContext)
    (f : PendingListItem → PendingListItem) : ConversionContext :=
  match ctx.openListItemStack with
  | [] => ctx
  | openIndex :: _ =>
    match ctx.pendingListItems[openIndex]? with
    | some item =>
      { ctx with pendingListItems := ctx.pendingListItems.set openIndex (f item) }
    | none => ctx

/-- `handleHeadingOpen` (lines 294-300); `level = 0` plays the `null` /
falsy role of a failed tag parse. -/
def handleHeadingOpen (level : Nat) (ctx : ConversionContext) : ConversionContext :=
  if level ≠ 0 then
    { ctx with
      currentHeadingLevel := some level
      currentParagraphStart := some ctx.currentIndex }
  else ctx

/-- `handleHeadingClose` (lines 302-324). -/
def handleHeadingClose (ctx : ConversionContext) : ConversionContext :=
  match ctx.currentHeadingLevel, ctx.currentParagraphStart with
  | some level, some startIdx =>
    if level ≠ 0 then
      let useTitle := ctx.firstHeadingAsTitle && ! ctx.titleConsumed && level == 1
      let ctx := if useTitle then { ctx with titleConsumed := true } else ctx
      let ctx := { ctx with paragraphRanges := ctx.paragraphRanges ++
        [{ startIndex := startIdx, endIndex := ctx.currentIndex,
           namedStyleType := some (if useTitle then "TITLE" else "HEADING_" ++ toString level) }] }
      let ctx := insertText "\n" ctx
      { ctx with currentHeadingLevel := none, currentParagraphStart := none }
    else ctx
  | _, _ => ctx

/-- `handleHorizontalRule` (lines 328-337). -/
def handleHorizontalRule (ctx0 : ConversionContext) : ConversionContext :=
  let ctx := if ! lastInsertEndsWithNewline ctx0 then insertText "\n" ctx0 else ctx0
  let start := ctx.currentIndex
  let ctx := insertText "\n" ctx
  { ctx with hrRanges := ctx.hrRanges ++ [(start, ctx.currentIndex)] }

/-- `handleParagraphOpen` (lines 341-345). -/
def handleParagraphOpen (ctx : ConversionContext) : ConversionContext :=
  if ctx.listStack.isEmpty then
    { ctx with currentParagraphStart := some ctx.currentIndex }
  else ctx

/-- `handleParagraphClose` (lines 347-362). -/
def handleParagraphClose (ctx0 : ConversionContext) : ConversionContext :=
  let ctx := if ! lastInsertEndsWithNewline ctx0 then insertText "\n" ctx0 else ctx0
  let ctx :=
    match getCurrentOpenListItem ctx with
    | some currentListItem =>
      let paragraphEndIndex :=
        if lastInsertEndsWithNewline ctx then ctx.currentIndex - 1 else ctx.currentIndex
      if paragraphEndIndex > currentListItem.startIndex then
        modifyCurrentOpenListItem ctx
          (fun item => { item with endIndex := some paragraphEndIndex })
      else ctx
    | none => ctx
  { ctx with currentParagraphStart := none }

/-- `handleListItemOpen` (lines 366-387): the only structural violation the
compiler raises. The peeked list entry is the most recently pushed one; the
pushed pending-item index is the position of the appended item. -/
def handleListItemOpen (ctx : ConversionContext) :
    Except CompileException ConversionContext :=
  match ctx.listStack with
  | [] => .error (.markdownConversionError "List item found outside of list context")
  | currentList :: _ =>
    let itemStart := ctx.currentIndex
    let ctx :=
      if currentList.level > 0 then insertText (strRepeat "\t" currentList.level) ctx
      else ctx
    let listItem : PendingListItem :=
      { startIndex := itemStart
        nestingLevel := currentList.level
        bulletPreset :=
          if currentList.type then .numberedDecimalAlphaRoman else .bulletDiscCircleSquare
        taskPrefixProcessed := false }
    let ctx := { ctx with pendingListItems := ctx.pendingListItems ++ [listItem] }
    .ok { ctx with openListItemStack := (ctx.pendingListItems.length - 1) :: ctx.openListItemStack }

/-- `handleListItemClose` (lines 389-406): popping an empty open-item stack
is a defensive no-op. -/
def handleListItemClose (ctx0 : ConversionContext) : ConversionContext :=
  match ctx0.openListItemStack with
  | [] => ctx0
  | openIndex :: rest =>
    let ctx := { ctx0 with openListItemStack := rest }
    let ctx :=
      match ctx.pendingListItems[openIndex]? with
      | some listItem =>
        if listItem.endIndex = none then
          let computedEndIndex :=
            if lastInsertEndsWithNewline ctx then ctx.currentIndex - 1 else ctx.currentIndex
          if computedEndIndex > listItem.startIndex then
            { ctx with pendingListItems :=
                ctx.pendingListItems.set openIndex { listItem with endIndex := some computedEndIndex } }
          else ctx
        else ctx
      | none => ctx -- out-of-range index: unreachable, indices are pushed in range
    if ! lastInsertEndsWithNewline ctx then insertText "\n" ctx else ctx

/-- Length of the task-list checkbox prefix `/^\[( |x|X)\]\s+/` when the
text matches it ('[' + mark + ']' + a maximal non-empty run of whitespace). -/
def taskPrefixLen : List Char → Option Nat
  | '[' :: m :: ']' :: rest =>
    if m = ' ' || m = 'x' || m = 'X' then
      let ws := (rest.takeWhile jsWs).length
      if ws > 0 then some (3 + ws) else none
    else none
  | _ => none

/-- The task-prefix step of `handleTextToken` (lines 414-423): possibly mark
the current open item processed, upgrade its preset and strip the prefix,
returning the text to insert and the updated state. -/
def taskPrefixPhase (content : String) (ctx0 : ConversionContext) :
    String × ConversionContext :=
  match getCurrentOpenListItem ctx0 with
  | some currentListItem =>
    if ! currentListItem.taskPrefixProcessed then
      let ctx1 := modifyCurrentOpenListItem ctx0
        (fun item => { item with taskPrefixProcessed := true })
      match taskPrefixLen content.data with
      | some n =>
        let ctx2 := modifyCurrentOpenListItem ctx1
          (fun item => { item with bulletPreset := .bulletCheckbox })
        ((⟨content.data.drop n⟩ : String), ctx2)
      | none => (content, ctx1)
    else (content, ctx0)
  | none => (content, ctx0)

/-- The emission step of `handleTextToken` (lines 421-433): skip empty text,
otherwise insert it and record a formatted range when the merged formatting
stack is non-empty. -/
def textEmitPhase (text : String) (ctx : ConversionContext) : ConversionContext :=
  if text = "" then ctx
  else
    let startIndex := ctx.currentIndex
    let endIndex := startIndex + text.length
    let ctx := insertText text ctx
    let currentFormatting := mergeFormattingStack ctx.formattingStack
    if hasFormatting currentFormatting then
      { ctx with textRanges := ctx.textRanges ++
        [{ startIndex := startIndex, endIndex := endIndex, formatting := currentFormatting }] }
    else ctx

/-- `handleTextToken` (lines 410-434). -/
def handleTextToken (content : String) (ctx0 : ConversionContext) : ConversionContext :=
  if content = "" then ctx0
  else
    let p := taskPrefixPhase content ctx0
    textEmitPhase p.1 p.2

/-- `handleCodeInlineToken` (lines 436-440). -/
def handleCodeInlineToken (content : String) (ctx : ConversionContext) : ConversionContext :=
  let ctx := { ctx with formattingStack := { code := some true } :: ctx.formattingStack }
  let ctx := handleTextToken content ctx
  popFormatting ctx .code

/-- The per-line loop of `handleCodeBlockToken` (lines 448-461). -/
def handleCodeBlockLines : List String → ConversionContext → ConversionContext
  | [], ctx => ctx
  | line :: rest, ctx =>
    let startIndex := ctx.currentIndex
    let ctx := if line.length > 0 then insertText line ctx else insertText " " ctx
    let ctx := { ctx with textRanges := ctx.textRanges ++
      [{ startIndex := startIndex, endIndex := ctx.currentIndex,
         formatting := { code := some true } }] }
    let ctx := insertText "\n" ctx
    handleCodeBlockLines rest ctx

/-- The line computation of `handleCodeBlockToken` (lines 443-446): one
trailing newline is removed, the remainder split on internal newlines; empty
content yields the single empty line. -/
def codeBlockLinesOf (content : String) : List String :=
  let normalizedContent := if strEndsWith content "\n" then strDropLast content else content
  if normalizedContent.length > 0 then strSplitNl normalizedContent else [""]

/-- `handleCodeBlockToken` (lines 442-466). -/
def handleCodeBlockToken (content : String) (ctx : ConversionContext) : ConversionContext :=
  let lines := codeBlockLinesOf content
  let ctx := handleCodeBlockLines lines ctx
  if ! lastInsertEndsWithDoubleNewline ctx then insertText "\n" ctx else ctx

/-! ## Forward compiler: dispatch loop and boundary -/

mutual

/-- `processToken` (lines 161-290); the `inline` case folds over the
children, and the table / blockquote / default cases are no-ops. A `link_open`
whose `href` is absent or empty (falsy in JS) pushes nothing. -/
def processToken : Token → ConversionContext → Except CompileException ConversionContext
  | .heading_open level, ctx => .ok (handleHeadingOpen level ctx)
  | .heading_close, ctx => .ok (handleHeadingClose ctx)
  | .paragraph_open, ctx => .ok (handleParagraphOpen ctx)
  | .paragraph_close, ctx => .ok (handleParagraphClose ctx)
  | .text content, ctx => .ok (handleTextToken content ctx)
  | .code_inline content, ctx => .ok (handleCodeInlineToken content ctx)
  | .strong_open, ctx =>
    .ok { ctx with formattingStack := { bold := some true } :: ctx.formattingStack }
  | .strong_close, ctx => .ok (popFormatting ctx .bold)
  | .em_open, ctx =>
    .ok { ctx with formattingStack := { italic := some true } :: ctx.formattingStack }
  | .em_close, ctx => .ok (popFormatting ctx .italic)
  | .s_open, ctx =>
    .ok { ctx with formattingStack := { strikethrough := some true } :: ctx.formattingStack }
  | .s_close, ctx => .ok (popFormatting ctx .strikethrough)
  | .link_open href, ctx =>
    .ok (match href with
      | some h =>
        if h ≠ "" then { ctx with formattingStack := { link := some h } :: ctx.formattingStack }
        else ctx
      | none => ctx)
  | .link_close, ctx => .ok (popFormatting ctx .link)
  | .bullet_list_open, ctx =>
    .ok { ctx with listStack := { type := false, level := ctx.listStack.length } :: ctx.listStack }
  | .bullet_list_close, ctx => .ok { ctx with listStack := ctx.listStack.tail }
  | .ordered_list_open, ctx =>
    .ok { ctx with listStack := { type := true, level := ctx.listStack.length } :: ctx.listStack }
  | .ordered_list_close, ctx => .ok { ctx with listStack := ctx.listStack.tail }
  | .list_item_open, ctx => handleListItemOpen ctx
  | .list_item_close, ctx => .ok (handleListItemClose ctx)
  | .softbreak, ctx => .ok (insertText " " ctx)
  | .hardbreak, ctx => .ok (insertText "\n" ctx)
  | .inline children, ctx => processTokens children ctx
  | .fence content, ctx => .ok (handleCodeBlockToken content ctx)
  | .hr, ctx => .ok (handleHorizontalRule ctx)
  | .skipped, ctx => .ok ctx

/-- The token loop of `convertMarkdownToRequests` (lines 142-144), also used
for the children of an `inline` token (lines 248-254). -/
def processTokens : List Token → ConversionContext → Except CompileException ConversionContext
  | [], ctx => .ok ctx
  | t :: ts, ctx =>
    match processToken t ctx with
    | .ok ctx2 => processTokens ts ctx2
    | .error e => .error e

end

/-! ## Forward compiler: finalization -/

/-- Modelled from the spec: `buildUpdateTextStyleRequest` is defined in
`src/googleDocsApiHelpers.ts`, which is not among the provided sources (only
its import and call sites are). Per §4.1 finalization step 1 of the spec it
builds one text-style operation for the given span and payload, and per
invariant (b) ("No zero-length style/bullet range is ever emitted") it
declines an empty span, returning `none` (the call sites guard on a possibly
missing result). -/
def buildUpdateTextStyleRequest (startIndex endIndex : Nat)
    (style : TextStylePayload) (tabId : Option String) : Option Request :=
  if endIndex ≤ startIndex then none
  else some (.updateTextStyle startIndex endIndex tabId style)

/-- Modelled from the spec: `buildUpdateParagraphStyleRequest` is defined in
`src/googleDocsApiHelpers.ts`, which is not among the provided sources. Per
§4.1 finalization step 2 it builds one paragraph-style operation with the
given named style, and per invariant (b) it declines an empty span, returning
`none`. -/
def buildUpdateParagraphStyleRequest (startIndex endIndex : Nat)
    (namedStyleType : String) (tabId : Option String) : Option Request :=
  if endIndex ≤ startIndex then none
  else some (.updateParagraphStyle startIndex endIndex tabId (.namedStyle namedStyleType))

/-- Character-level part of `finalizeFormatting` (lines 520-564): for one
`textRanges` entry, the decoration operation (emitted when any of
bold/italic/strikethrough/code is set) followed by the independent link
operation (emitted when a link URL is present; the empty string is falsy in
JS and emits nothing). -/
def finalizeTextRange (tabId : Option String) (range : TextRange) : List Request :=
  let decorated :=
    if range.formatting.bold == some true || range.formatting.italic == some true ||
        range.formatting.strikethrough == some true || range.formatting.code == some true then
      match buildUpdateTextStyleRequest range.startIndex range.endIndex
        { bold := range.formatting.bold
          italic := range.formatting.italic
          strikethrough := range.formatting.strikethrough
          fontFamily := if range.formatting.code == some true then some CODE_FONT_FAMILY else none
          foregroundColor := if range.formatting.code == some true then some CODE_TEXT_HEX else none
          backgroundColor :=
            if range.formatting.code == some true then some CODE_BACKGROUND_HEX else none }
        tabId with
      | some r => [r]
      | none => []
    else []
  let linked :=
    match range.formatting.link with
    | some url =>
      if url ≠ "" then
        match buildUpdateTextStyleRequest range.startIndex range.endIndex
          { linkUrl := some url } tabId with
        | some r => [r]
        | none => []
      else []
    | none => []
  decorated ++ linked

/-- Paragraph-level part of `finalizeFormatting` (lines 567-579). -/
def finalizeParagraphRange (tabId : Option String) (paraRange : ParagraphRange) : List Request :=
  match paraRange.namedStyleType with
  | some styleType =>
    match buildUpdateParagraphStyleRequest paraRange.startIndex paraRange.endIndex
      styleType tabId with
    | some r => [r]
    | none => []
  | none => []

/-- One merged bullet range (lines 619-635). -/
structure MergedListRange where
  startIndex : Nat
  endIndex : Nat
  bulletPreset : BulletPreset
deriving Repr, DecidableEq

/-- Insertion step of a stable insertion sort; with a total `le` this
reproduces JS `Array.prototype.sort` (stable since ES2019) under the
corresponding comparator. -/
def insertLe {α : Type} (le : α → α → Bool) (a : α) : List α → List α
  | [] => [a]
  | b :: bs => if le a b then a :: b :: bs else b :: insertLe le a bs

/-- Stable insertion sort (model of JS `Array.prototype.sort`). -/
def sortByLe {α : Type} (le : α → α → Bool) : List α → List α
  | [] => []
  | a :: as => insertLe le a (sortByLe le as)

/-- Comparator `(a, b) => a.startIndex - b.startIndex` (ascending). -/
def itemLe (a b : PendingListItem) : Bool := a.startIndex ≤ b.startIndex

/-- Comparator `(a, b) => b.startIndex - a.startIndex` (descending). -/
def mergedGe (a b : MergedListRange) : Bool := b.startIndex ≤ a.startIndex

/-- The `pendingListItems` filter of lines 615-616: items with a resolved
`endIndex` strictly greater than `startIndex`. -/
def validListItems (items : List PendingListItem) : List PendingListItem :=
  items.filter (fun item =>
    match item.endIndex with
    | some e => e > item.startIndex
    | none => false)

/-- One iteration of the merge loop (lines 620-635): extend the last merged
range when the presets are identical and the item starts at or before
`last.endIndex + 1`, otherwise append a fresh range. (`item.endIndex.getD 0`
renders the source's non-null assertion `item.endIndex!`; the loop only
receives valid items, whose `endIndex` is resolved.) -/
def mergeStep (acc : List MergedListRange) (item : PendingListItem) : List MergedListRange :=
  match acc.getLast? with
  | some last =>
    if last.bulletPreset == item.bulletPreset && item.startIndex ≤ last.endIndex + 1 then
      acc.dropLast ++ [{ last with endIndex := max last.endIndex (item.endIndex.getD 0) }]
    else
      acc ++ [{ startIndex := item.startIndex, endIndex := item.endIndex.getD 0,
                bulletPreset := item.bulletPreset }]
  | none =>
    acc ++ [{ startIndex := item.startIndex, endIndex := item.endIndex.getD 0,
              bulletPreset := item.bulletPreset }]

/-- The merged bullet ranges of one compilation (lines 615-635): filter the
pending items, sort ascending by start offset, then fold the merge step. -/
def mergedListRangesOf (items : List PendingListItem) : List MergedListRange :=
  (sortByLe itemLe (validListItems items)).foldl mergeStep []

/-- Character-style operations of the finalization (lines 520-564). -/
def fmtTextOps (ctx : ConversionContext) : List Request :=
  (ctx.textRanges.map (finalizeTextRange ctx.tabId)).flatten

/-- Paragraph-style operations of the finalization (lines 567-579). -/
def fmtParaOps (ctx : ConversionContext) : List Request :=
  (ctx.paragraphRanges.map (finalizeParagraphRange ctx.tabId)).flatten

/-- Horizontal-rule border operations of the finalization (lines 582-607). -/
def fmtHrOps (ctx : ConversionContext) : List Request :=
  ctx.hrRanges.map
    (fun hrRange => Request.updateParagraphStyle hrRange.1 hrRange.2 ctx.tabId .bottomBorder)

/-- The merged bullet ranges sorted in descending start order (line 638). -/
def sortedMergedOf (ctx : ConversionContext) : List MergedListRange :=
  sortByLe mergedGe (mergedListRangesOf ctx.pendingListItems)

/-- Bullet-range operations of the finalization (lines 640-655). -/
def fmtBulletOps (ctx : ConversionContext) : List Request :=
  (sortedMergedOf ctx).map
    (fun merged =>
      Request.createParagraphBullets merged.startIndex merged.endIndex ctx.tabId merged.bulletPreset)

/-- `finalizeFormatting` (lines 518-656). -/
def finalizeFormatting (ctx : ConversionContext) : ConversionContext :=
  { ctx with formatRequests := ctx.formatRequests ++ fmtTextOps ctx ++ fmtParaOps ctx ++
      fmtHrOps ctx ++ fmtBulletOps ctx }

/-! ## Forward compiler: entry point -/

/-- The fresh `ConversionContext` of lines 125-139. -/
def initialContext (startIndex : Nat) (tabId : Option String)
    (firstHeadingAsTitle : Bool) : ConversionContext :=
  { currentIndex := startIndex
    tabId := tabId
    titleConsumed := false
    firstHeadingAsTitle := firstHeadingAsTitle }

/-- The `catch` block of `convertMarkdownToRequests` (lines 149-156): a
`MarkdownConversionError` crosses the boundary unwrapped; any other exception
is wrapped into a fresh `MarkdownConversionError`. -/
def catchWrap : CompileException → CompileException
  | .markdownConversionError m => .markdownConversionError m
  | .otherException m => .markdownConversionError ("Failed to convert markdown: " ++ m)

/-- The final context of one compilation (token loop then finalization),
exposed for stating invariants about the cursor. -/
def compileContext (tokens : List Token) (startIndex : Nat) (tabId : Option String)
    (firstHeadingAsTitle : Bool) : Except CompileException ConversionContext :=
  match processTokens tokens (initialContext startIndex tabId firstHeadingAsTitle) with
  | .ok ctx => .ok (finalizeFormatting ctx)
  | .error e => .error (catchWrap e)

/-- `convertMarkdownToRequests` (lines 112-157) from the token stream on:
the markdown parsing step is the external Token Source (the
`markdown.trim()` emptiness guard lives at the string level, before
tokenization, and returns `[]`). The result concatenates the insertion
requests (in generation order) with the formatting requests. -/
def convertTokensToRequests (tokens : List Token) (startIndex : Nat := 1)
    (tabId : Option String := none) (firstHeadingAsTitle : Bool := false) :
    Except CompileException (List Request) :=
  match compileContext tokens startIndex tabId firstHeadingAsTitle with
  | .ok ctx => .ok (ctx.insertRequests ++ ctx.formatRequests)
  | .error e => .error e

/-! ## Reverse renderer: data model (docsToMarkdown.ts) -/

/-- The recognized monospace font families (line 7). -/
def CODE_FONT_FAMILIES : List String :=
  ["Roboto Mono", "Courier New", "Consolas", "monospace"]

/-- `textStyle.link` (an object with an optional `url`). -/
structure DocsLink where
  url : Option String := none
deriving Repr, DecidableEq

/-- `textStyle.weightedFontFamily`. -/
structure WeightedFontFamily where
  fontFamily : Option String := none
deriving Repr, DecidableEq

/-- A text run's `textStyle` as read by the renderer; absent boolean fields
are JS-falsy, modelled `false`. -/
structure DocsTextStyle where
  bold : Bool := false
  italic : Bool := false
  strikethrough : Bool := false
  underline : Bool := false
  link : Option DocsLink := none
  weightedFontFamily : Option WeightedFontFamily := none
deriving Repr, DecidableEq

/-- A `textRun`. -/
structure DocsTextRun where
  content : Option String := none
  textStyle : Option DocsTextStyle := none
deriving Repr, DecidableEq

/-- One entry of `paragraph.elements`. -/
structure DocsParagraphElement where
  textRun : Option DocsTextRun := none
deriving Repr, DecidableEq

/-- `paragraph.bullet`. -/
structure DocsBullet where
  nestingLevel : Option Nat := none
  listId : Option String := none
deriving Repr, DecidableEq

/-- `paragraph.paragraphStyle`. -/
structure DocsParagraphStyle where
  namedStyleType : Option String := none
deriving Repr, DecidableEq

/-- A `paragraph` block. -/
structure DocsParagraph where
  paragraphStyle : Option DocsParagraphStyle := none
  bullet : Option DocsBullet := none
  elements : Option (List DocsParagraphElement) := none
deriving Repr, DecidableEq

/-- One per-level descriptor of a list's `nestingLevels`. -/
structure NestingLevelDef where
  glyphType : Option String := none
deriving Repr, DecidableEq

/-- `lists[listId].listProperties`. -/
structure ListProperties where
  nestingLevels : Option (List NestingLevelDef) := none
deriving Repr, DecidableEq

/-- One entry of the `lists` registry. -/
structure ListDef where
  listProperties : Option ListProperties := none
deriving Repr, DecidableEq

/-- `lists[listId]` lookup over the registry record. -/
def lookupList (lists : List (String × ListDef)) (id : String) : Option ListDef :=
  (lists.find? (·.1 == id)).map (·.2)

/-- A cell's `content` entry (only its `paragraph` is ever read). -/
structure TableCellElement where
  paragraph : Option DocsParagraph := none
deriving Repr, DecidableEq

/-- A `tableCell`. -/
structure TableCell where
  content : Option (List TableCellElement) := none
deriving Repr, DecidableEq

/-- A `tableRow`. -/
structure TableRow where
  tableCells : Option (List TableCell) := none
deriving Repr, DecidableEq

/-- A `table` block. -/
structure DocsTable where
  tableRows : Option (List TableRow) := none
deriving Repr, DecidableEq

/-- A structural element of `body.content`: the renderer dispatches on
`element.paragraph`, `element.table`, `element.sectionBreak` and ignores
anything else. -/
inductive StructuralElement where
  | paragraph (p : DocsParagraph)
  | table (t : DocsTable)
  | sectionBreak
  | other
deriving Repr, DecidableEq

/-- `docData.body`. -/
structure DocsBody where
  content : Option (List StructuralElement) := none
deriving Repr, DecidableEq

/-- The `{ body, lists }` input of `docsJsonToMarkdown`. -/
structure DocData where
  body : Option DocsBody := none
  lists : Option (List (String × ListDef)) := none
deriving Repr, DecidableEq

/-! ## Reverse renderer: conversion -/

/-- Digit branch of the `/^HEADING_(\d)$/` match of `getHeadingLevel`. -/
def parseHeadingDigit (s : String) : Option Nat :=
  match s.data with
  | ['H', 'E', 'A', 'D', 'I', 'N', 'G', '_', d] =>
    if d.isDigit then some (d.toNat - 48) else none
  | _ => none

/-- `getHeadingLevel` (lines 75-84); an absent or empty (falsy) style type
yields `null`. -/
def getHeadingLevel (paragraph : DocsParagraph) : Option Nat :=
  match paragraph.paragraphStyle with
  | none => none
  | some ps =>
    match ps.namedStyleType with
    | none => none
    | some styleType =>
      if styleType = "" then none
      else if styleType = "TITLE" then some 1
      else if styleType = "SUBTITLE" then some 2
      else parseHeadingDigit styleType

/-- `ListInfo` (lines 88-91). -/
structure ListInfo where
  ordered : Bool
  nestingLevel : Nat
deriving Repr, DecidableEq

/-- `getListInfo` (lines 93-114): present exactly when the paragraph carries
a `bullet`; a level is ordered iff its registry descriptor has a non-empty
`glyphType` other than `GLYPH_TYPE_UNSPECIFIED` (missing registry entries,
levels, or a falsy `listId` default to unordered). -/
def getListInfo (paragraph : DocsParagraph) (lists : List (String × ListDef)) :
    Option ListInfo :=
  match paragraph.bullet with
  | none => none
  | some bullet =>
    let nestingLevel := bullet.nestingLevel.getD 0
    let ordered :=
      match bullet.listId with
      | some listId =>
        if listId ≠ "" then
          match ((lookupList lists listId).bind (·.listProperties)).bind (·.nestingLevels) with
          | some nestingLevels =>
            match nestingLevels[nestingLevel]? with
            | some level =>
              match level.glyphType with
              | some g => g ≠ "" && g ≠ "GLYPH_TYPE_UNSPECIFIED"
              | none => false
            | none => false
          | none => false
        else false
      | none => false
    some { ordered := ordered, nestingLevel := nestingLevel }

/-- `isCodeStyled` (lines 179-182). -/
def isCodeStyled (style : DocsTextStyle) : Bool :=
  match style.weightedFontFamily with
  | some wff =>
    match wff.fontFamily with
    | some f => CODE_FONT_FAMILIES.contains f
    | none => false
  | none => false

/-- `convertTextRun` (lines 130-177). -/
def convertTextRun (textRun : DocsTextRun) : String :=
  let text := textRun.content.getD ""
  match textRun.textStyle with
  | none => text
  | some style =>
    if isCodeStyled style then
      let trimmed := if strEndsWith text "\n" then strDropLast text else text
      if trimmed ≠ "" then
        "`" ++ trimmed ++ "`" ++ (if strEndsWith text "\n" then "\n" else "")
      else text
    else
      let trailingNewline := strEndsWith text "\n"
      let content := if trailingNewline then strDropLast text else text
      if content = "" then text
      else
        let formatted := content
        let formatted :=
          if style.bold && style.italic then "***" ++ formatted ++ "***"
          else if style.bold then "**" ++ formatted ++ "**"
          else if style.italic then "*" ++ formatted ++ "*"
          else formatted
        let formatted := if style.strikethrough then "~~" ++ formatted ++ "~~" else formatted
        let formatted :=
          if style.underline && style.link.isNone then "<u>" ++ formatted ++ "</u>"
          else formatted
        let formatted :=
          match style.link with
          | some link =>
            match link.url with
            | some url =>
              if url ≠ "" then "[" ++ formatted ++ "](" ++ url ++ ")" else formatted
            | none => formatted
          | none => formatted
        formatted ++ (if trailingNewline then "\n" else "")

/-- `extractFormattedText` (lines 118-128). -/
def extractFormattedText (elements : List DocsParagraphElement) : String :=
  elements.foldl
    (fun result element =>
      match element.textRun with
      | some tr => result ++ convertTextRun tr
      | none => result)
    ""

/-- `convertParagraph` (lines 45-71). -/
def convertParagraph (paragraph : DocsParagraph) (lists : List (String × ListDef)) :
    String :=
  let headingLevel := getHeadingLevel paragraph
  let listInfo := getListInfo paragraph lists
  let text := extractFormattedText (paragraph.elements.getD [])
  if headingLevel.getD 0 ≠ 0 && jsTrim text ≠ "" then
    strRepeat "#" (min (headingLevel.getD 0) 6) ++ " " ++ jsTrim text ++ "\n\n"
  else if listInfo.isSome && jsTrim text ≠ "" then
    let li := listInfo.getD { ordered := false, nestingLevel := 0 }
    strRepeat "  " li.nestingLevel ++ (if li.ordered then "1." else "-") ++ " " ++
      jsTrim text ++ "\n"
  else if jsTrim text ≠ "" then
    jsTrim text ++ "\n\n"
  else "\n"

/-- `extractCellText` (lines 218-233). -/
def extractCellText (cell : TableCell) : String :=
  match cell.content with
  | none => ""
  | some content =>
    content.foldl
      (fun text element =>
        match element.paragraph with
        | some p =>
          (p.elements.getD []).foldl
            (fun text pe =>
              match pe.textRun with
              | some tr =>
                match tr.content with
                | some c => if c ≠ "" then text ++ jsTrim (replaceNlWithSpace c) else text
                | none => text
              | none => text)
            text
        | none => text)
      ""

/-- `convertTable` (lines 186-216); a row without `tableCells` is skipped
(`continue`), and the dash separator row follows the first rendered row. -/
def convertTable (table : DocsTable) : String :=
  match table.tableRows with
  | none => ""
  | some rows =>
    if rows.length = 0 then ""
    else
      let step := fun (acc : String × Bool) (row : TableRow) =>
        match row.tableCells with
        | none => acc
        | some cells =>
          let rowText := cells.foldl
            (fun rowText cell => rowText ++ " " ++ extractCellText cell ++ " |") "|"
          let md := acc.1 ++ rowText ++ "\n"
          if acc.2 then
            let separator := cells.foldl (fun sep _ => sep ++ " --- |") "|"
            (md ++ separator ++ "\n", false)
          else (md, acc.2)
      let r := rows.foldl step ("\n", true)
      r.1 ++ "\n"

/-- The per-element dispatch of the `docsJsonToMarkdown` body loop
(lines 30-38). -/
def renderStructuralElement (lists : List (String × ListDef)) :
    StructuralElement → String
  | .paragraph p => convertParagraph p lists
  | .table t => convertTable t
  | .sectionBreak => "\n---\n\n"
  | .other => ""

/-- `docsJsonToMarkdown` (lines 21-41). -/
def docsJsonToMarkdown (docData : DocData) : String :=
  match docData.body with
  | none => ""
  | some body =>
    match body.content with
    | none => ""
    | some content =>
      let lists := docData.lists.getD []
      let markdown := content.foldl
        (fun md el => md ++ renderStructuralElement lists el) ""
      jsTrim markdown

/-! ## Generic lemmas about the token loop -/

/-- Propositional equality on `Except` values is decidable when it is on the
error and result types (needed to evaluate the compiler by `decide`). -/
instance {ε α : Type} [DecidableEq ε] [DecidableEq α] : DecidableEq (Except ε α) := fun x y =>
  match x, y with
  | .ok a, .ok b => decidable_of_iff (a = b) (by simp)
  | .error e, .error f => decidable_of_iff (e = f) (by simp)
  | .ok _, .error _ => isFalse (by simp)
  | .error _, .ok _ => isFalse (by simp)

/-- The token loop processes a concatenation by processing the pieces in
order (used to evaluate concrete token streams stepwise). -/
theorem processTokens_append_ok (ys : List Token) :
    ∀ {xs : List Token} {ctx ctx2 : ConversionContext},
      processTokens xs ctx = .ok ctx2 →
      processTokens (xs ++ ys) ctx = processTokens ys ctx2 := by
  intro xs
  induction xs with
  | nil =>
    intro ctx ctx2 h
    rw [show ctx = ctx2 from by injection h]
    rfl
  | cons t ts ih =>
    intro ctx ctx2 h
    rw [List.cons_append]
    simp only [processTokens] at h ⊢
    cases hpt : processToken t ctx with
    | ok c =>
      rw [hpt] at h
      exact ih h
    | error e =>
      rw [hpt] at h
      simp at h

/-! ## Concrete token streams

The markdown-it tokenizations (external Token Source) of the markdown inputs
quoted by the spec's testable properties. Tight-list paragraphs are `hidden`
tokens in markdown-it, but `convertMarkdownToRequests` iterates all tokens
without consulting `hidden`, so they appear here. -/

/-- Tokens of `"- A\n- B\n- C"`. -/
def tokensBulletsABC : List Token :=
  [.bullet_list_open,
   .list_item_open, .paragraph_open, .inline [.text "A"], .paragraph_close, .list_item_close,
   .list_item_open, .paragraph_open, .inline [.text "B"], .paragraph_close, .list_item_close,
   .list_item_open, .paragraph_open, .inline [.text "C"], .paragraph_close, .list_item_close,
   .bullet_list_close]

/-- Tokens of `"- A\n\n**X**\n\n- B"`. -/
def tokensBulletsInterposed : List Token :=
  [.bullet_list_open, .list_item_open, .paragraph_open, .inline [.text "A"], .paragraph_close,
   .list_item_close, .bullet_list_close,
   .paragraph_open, .inline [.strong_open, .text "X", .strong_close], .paragraph_close,
   .bullet_list_open, .list_item_open, .paragraph_open, .inline [.text "B"], .paragraph_close,
   .list_item_close, .bullet_list_close]

/-- Tokens of `"# T\n\n# U"`. -/
def tokensTwoHeadings : List Token :=
  [.heading_open 1, .inline [.text "T"], .heading_close,
   .heading_open 1, .inline [.text "U"], .heading_close]

/-- Tokens of `"- [x] done\n- [ ] todo"`. -/
def tokensTaskList : List Token :=
  [.bullet_list_open,
   .list_item_open, .paragraph_open, .inline [.text "[x] done"], .paragraph_close, .list_item_close,
   .list_item_open, .paragraph_open, .inline [.text "[ ] todo"], .paragraph_close, .list_item_close,
   .bullet_list_close]

/-- Shorthand for a resolved level-0 pending item with the given preset. -/
def pendingItem (s e : Nat) (preset : BulletPreset) : PendingListItem :=
  { startIndex := s, endIndex := some e, nestingLevel := 0,
    bulletPreset := preset, taskPrefixProcessed := true }

/-- Compiler state after the first item of `tokensBulletsABC`. -/
def ctxABC1 : ConversionContext :=
  { currentIndex := 3
    insertRequests := [.insertText 1 none "A", .insertText 2 none "\n"]
    listStack := [{ type := false, level := 0 }]
    pendingListItems := [pendingItem 1 2 .bulletDiscCircleSquare] }

/-- Compiler state after the second item of `tokensBulletsABC`. -/
def ctxABC2 : ConversionContext :=
  { currentIndex := 5
    insertRequests := [.insertText 1 none "A", .insertText 2 none "\n",
                       .insertText 3 none "B", .insertText 4 none "\n"]
    listStack := [{ type := false, level := 0 }]
    pendingListItems := [pendingItem 1 2 .bulletDiscCircleSquare,
                         pendingItem 3 4 .bulletDiscCircleSquare] }

/-- Compiler state after the third item of `tokensBulletsABC`. -/
def ctxABC3 : ConversionContext :=
  { currentIndex := 7
    insertRequests := [.insertText 1 none "A", .insertText 2 none "\n",
                       .insertText 3 none "B", .insertText 4 none "\n",
                       .insertText 5 none "C", .insertText 6 none "\n"]
    listStack := [{ type := false, level := 0 }]
    pendingListItems := [pendingItem 1 2 .bulletDiscCircleSquare,
                         pendingItem 3 4 .bulletDiscCircleSquare,
                         pendingItem 5 6 .bulletDiscCircleSquare] }

/-- Final compiler state for `tokensBulletsABC`. -/
def ctxABC4 : ConversionContext := { ctxABC3 with listStack := [] }

theorem stepABC1 :
    processTokens
      [.bullet_list_open, .list_item_open, .paragraph_open, .inline [.text "A"],
       .paragraph_close, .list_item_close]
      (initialContext 1 none false) = .ok ctxABC1 := by decide

theorem stepABC2 :
    processTokens
      [.list_item_open, .paragraph_open, .inline [.text "B"], .paragraph_close, .list_item_close]
      ctxABC1 = .ok ctxABC2 := by decide

theorem stepABC3 :
    processTokens
      [.list_item_open, .paragraph_open, .inline [.text "C"], .paragraph_close, .list_item_close]
      ctxABC2 = .ok ctxABC3 := by decide

theorem stepABC4 : processTokens [.bullet_list_close] ctxABC3 = .ok ctxABC4 := by decide

/-- The token pass evaluated on the tokens of `"- A\n- B\n- C"`. -/
theorem processBulletsABC_eq :
    processTokens tokensBulletsABC (initialContext 1 none false) = .ok ctxABC4 := by
  rw [show tokensBulletsABC =
    [.bullet_list_open, .list_item_open, .paragraph_open, .inline [.text "A"],
     .paragraph_close, .list_item_close] ++
    ([.list_item_open, .paragraph_open, .inline [.text "B"], .paragraph_close,
      .list_item_close] ++
     ([.list_item_open, .paragraph_open, .inline [.text "C"], .paragraph_close,
       .list_item_close] ++ [.bullet_list_close])) from rfl]
  rw [processTokens_append_ok _ stepABC1, processTokens_append_ok _ stepABC2,
      processTokens_append_ok _ stepABC3]
  exact stepABC4

/-- Full evaluation of the compiler on the tokens of `"- A\n- B\n- C"`. -/
theorem convertBulletsABC_eq :
    convertTokensToRequests tokensBulletsABC 1 none false =
      .ok [.insertText 1 none "A", .insertText 2 none "\n",
           .insertText 3 none "B", .insertText 4 none "\n",
           .insertText 5 none "C", .insertText 6 none "\n",
           .createParagraphBullets 1 6 none .bulletDiscCircleSquare] := by
  rw [convertTokensToRequests, compileContext, processBulletsABC_eq]
  decide

/-- A bold text range over `[s, e)`. -/
def boldRange (s e : Nat) : TextRange :=
  { startIndex := s, endIndex := e, formatting := { bold := some true } }

/-- State after the first (single-item) list of `tokensBulletsInterposed`. -/
def ctxInt1 : ConversionContext :=
  { currentIndex := 3
    insertRequests := [.insertText 1 none "A", .insertText 2 none "\n"]
    listStack := [{ type := false, level := 0 }]
    pendingListItems := [pendingItem 1 2 .bulletDiscCircleSquare] }

/-- State after the interposed bold paragraph of `tokensBulletsInterposed`. -/
def ctxInt2 : ConversionContext :=
  { currentIndex := 5
    insertRequests := [.insertText 1 none "A", .insertText 2 none "\n",
                       .insertText 3 none "X", .insertText 4 none "\n"]
    textRanges := [boldRange 3 4]
    pendingListItems := [pendingItem 1 2 .bulletDiscCircleSquare] }

/-- State inside the second list of `tokensBulletsInterposed`. -/
def ctxInt3 : ConversionContext :=
  { currentIndex := 7
    insertRequests := [.insertText 1 none "A", .insertText 2 none "\n",
                       .insertText 3 none "X", .insertText 4 none "\n",
                       .insertText 5 none "B", .insertText 6 none "\n"]
    textRanges := [boldRange 3 4]
    listStack := [{ type := false, level := 0 }]
    pendingListItems := [pendingItem 1 2 .bulletDiscCircleSquare,
                         pendingItem 5 6 .bulletDiscCircleSquare]
    openListItemStack := [1] }

/-- Final compiler state for `tokensBulletsInterposed`. -/
def ctxInt4 : ConversionContext :=
  { ctxInt3 with listStack := [], openListItemStack := [] }

theorem stepInt1 :
    processTokens
      [.bullet_list_open, .list_item_open, .paragraph_open, .inline [.text "A"],
       .paragraph_close, .list_item_close]
      (initialContext 1 none false) = .ok ctxInt1 := by decide

theorem stepInt2 :
    processTokens
      [.bullet_list_close, .paragraph_open, .inline [.strong_open, .text "X", .strong_close],
       .paragraph_close]
      ctxInt1 = .ok ctxInt2 := by decide

theorem stepInt3 :
    processTokens
      [.bullet_list_open, .list_item_open, .paragraph_open, .inline [.text "B"],
       .paragraph_close]
      ctxInt2 = .ok ctxInt3 := by decide

theorem stepInt4 :
    processTokens [.list_item_close, .bullet_list_close] ctxInt3 = .ok ctxInt4 := by decide

/-- Full evaluation of the compiler on the tokens of `"- A\n\n**X**\n\n- B"`. -/
theorem convertBulletsInterposed_eq :
    convertTokensToRequests tokensBulletsInterposed 1 none false =
      .ok [.insertText 1 none "A", .insertText 2 none "\n",
           .insertText 3 none "X", .insertText 4 none "\n",
           .insertText 5 none "B", .insertText 6 none "\n",
           .updateTextStyle 3 4 none { bold := some true },
           .createParagraphBullets 5 6 none .bulletDiscCircleSquare,
           .createParagraphBullets 1 2 none .bulletDiscCircleSquare] := by
  have hrun : processTokens tokensBulletsInterposed (initialContext 1 none false) =
      .ok ctxInt4 := by
    rw [show tokensBulletsInterposed =
      [.bullet_list_open, .list_item_open, .paragraph_open, .inline [.text "A"],
       .paragraph_close, .list_item_close] ++
      ([.bullet_list_close, .paragraph_open, .inline [.strong_open, .text "X", .strong_close],
        .paragraph_close] ++
       ([.bullet_list_open, .list_item_open, .paragraph_open, .inline [.text "B"],
         .paragraph_close] ++ [.list_item_close, .bullet_list_close])) from rfl]
    rw [processTokens_append_ok _ stepInt1, processTokens_append_ok _ stepInt2,
        processTokens_append_ok _ stepInt3]
    exact stepInt4
  rw [convertTokensToRequests, compileContext, hrun]
  decide

/-- State after the first heading of `tokensTwoHeadings` (title flag on). -/
def ctxHd1 : ConversionContext :=
  { currentIndex := 3
    insertRequests := [.insertText 1 none "T", .insertText 2 none "\n"]
    paragraphRanges := [{ startIndex := 1, endIndex := 2, namedStyleType := some "TITLE" }]
    titleConsumed := true
    firstHeadingAsTitle := true }

/-- Final compiler state for `tokensTwoHeadings` (title flag on). -/
def ctxHd2 : ConversionContext :=
  { ctxHd1 with
    currentIndex := 5
    insertRequests := [.insertText 1 none "T", .insertText 2 none "\n",
                       .insertText 3 none "U", .insertText 4 none "\n"]
    paragraphRanges := [{ startIndex := 1, endIndex := 2, namedStyleType := some "TITLE" },
                        { startIndex := 3, endIndex := 4, namedStyleType := some "HEADING_1" }] }

theorem stepHd1 :
    processTokens [.heading_open 1, .inline [.text "T"], .heading_close]
      (initialContext 1 none true) = .ok ctxHd1 := by decide

theorem stepHd2 :
    processTokens [.heading_open 1, .inline [.text "U"], .heading_close]
      ctxHd1 = .ok ctxHd2 := by decide

/-- Full evaluation of the compiler on the tokens of `"# T\n\n# U"` with the
first-heading-as-title option enabled. -/
theorem convertTwoHeadings_eq :
    convertTokensToRequests tokensTwoHeadings 1 none true =
      .ok [.insertText 1 none "T", .insertText 2 none "\n",
           .insertText 3 none "U", .insertText 4 none "\n",
           .updateParagraphStyle 1 2 none (.namedStyle "TITLE"),
           .updateParagraphStyle 3 4 none (.namedStyle "HEADING_1")] := by
  have hrun : processTokens tokensTwoHeadings (initialContext 1 none true) = .ok ctxHd2 := by
    rw [show tokensTwoHeadings =
      [.heading_open 1, .inline [.text "T"], .heading_close] ++
      [.heading_open 1, .inline [.text "U"], .heading_close] from rfl]
    rw [processTokens_append_ok _ stepHd1]
    exact stepHd2
  rw [convertTokensToRequests, compileContext, hrun]
  decide

/-- State after the first task item of `tokensTaskList`. -/
def ctxTk1 : ConversionContext :=
  { currentIndex := 6
    insertRequests := [.insertText 1 none "done", .insertText 5 none "\n"]
    listStack := [{ type := false, level := 0 }]
    pendingListItems := [pendingItem 1 5 .bulletCheckbox] }

/-- State after the second task item of `tokensTaskList`. -/
def ctxTk2 : ConversionContext :=
  { ctxTk1 with
    currentIndex := 11
    insertRequests := [.insertText 1 none "done", .insertText 5 none "\n",
                       .insertText 6 none "todo", .insertText 10 none "\n"]
    pendingListItems := [pendingItem 1 5 .bulletCheckbox,
                         pendingItem 6 10 .bulletCheckbox] }

/-- Final compiler state for `tokensTaskList`. -/
def ctxTk3 : ConversionContext := { ctxTk2 with listStack := [] }

theorem stepTk1 :
    processTokens
      [.bullet_list_open, .list_item_open, .paragraph_open, .inline [.text "[x] done"],
       .paragraph_close, .list_item_close]
      (initialContext 1 none false) = .ok ctxTk1 := by decide

theorem stepTk2 :
    processTokens
      [.list_item_open, .paragraph_open, .inline [.text "[ ] todo"], .paragraph_close,
       .list_item_close]
      ctxTk1 = .ok ctxTk2 := by decide

theorem stepTk3 : processTokens [.bullet_list_close] ctxTk2 = .ok ctxTk3 := by decide

/-- Full evaluation of the compiler on the tokens of
`"- [x] done\n- [ ] todo"`. -/
theorem convertTaskList_eq :
    convertTokensToRequests tokensTaskList 1 none false =
      .ok [.insertText 1 none "done", .insertText 5 none "\n",
           .insertText 6 none "todo", .insertText 10 none "\n",
           .createParagraphBullets 1 10 none .bulletCheckbox] := by
  have hrun : processTokens tokensTaskList (initialContext 1 none false) = .ok ctxTk3 := by
    rw [show tokensTaskList =
      [.bullet_list_open, .list_item_open, .paragraph_open, .inline [.text "[x] done"],
       .paragraph_close, .list_item_close] ++
      ([.list_item_open, .paragraph_open, .inline [.text "[ ] todo"], .paragraph_close,
        .list_item_close] ++ [.bullet_list_close]) from rfl]
    rw [processTokens_append_ok _ stepTk1, processTokens_append_ok _ stepTk2]
    exact stepTk3
  rw [convertTokensToRequests, compileContext, hrun]
  decide

/-! ## Reverse renderer: small evaluation facts -/

theorem strEndsWith_empty_nl : strEndsWith "" "\n" = false := by decide

theorem strEndsWith_nl_nl : strEndsWith "\n" "\n" = true := by decide

theorem strEndsWith_nl_double : strEndsWith "\n" "\n\n" = false := by decide

theorem strDropLast_nl : strDropLast "\n" = "" := by decide

/-- CLAIM C10 target fact, general form shared with its theorem: a styled run
with empty content is returned unchanged. -/
theorem convertTextRun_empty (style : DocsTextStyle) :
    convertTextRun { content := some "", textStyle := some style } = "" := by
  cases h : isCodeStyled style <;>
    simp [convertTextRun, h, strEndsWith_empty_nl]

/-- A styled run whose content is a lone newline is returned unchanged. -/
theorem convertTextRun_newline (style : DocsTextStyle) :
    convertTextRun { content := some "\n", textStyle := some style } = "\n" := by
  cases h : isCodeStyled style <;>
    simp [convertTextRun, h, strEndsWith_nl_nl, strDropLast_nl]

/-- `textRun.content ?? ''` (line 131). -/
def runRawText (run : DocsTextRun) : String := run.content.getD ""

/-- The trailing-newline detachment of lines 139 / 148-149: the body text and
the (possibly empty) newline suffix to reattach after wrapping. -/
def detachTrailingNl (text : String) : String × String :=
  if strEndsWith text "\n" then (strDropLast text, "\n") else (text, "")

/-- The inline marker combination exactly as the spec's §4.2 words it
(bold+italic → triple asterisk, bold → double, italic → single; then
strikethrough in double tildes; then underline tag when no link accompanies;
then the link construct outermost), stated as a second definition to be
compared against `convertTextRun`. -/
def specInlineMarkers (style : DocsTextStyle) (core : String) : String :=
  let f :=
    if style.bold && style.italic then "***" ++ core ++ "***"
    else if style.bold then "**" ++ core ++ "**"
    else if style.italic then "*" ++ core ++ "*"
    else core
  let f := if style.strikethrough then "~~" ++ f ++ "~~" else f
  let f := if style.underline && style.link.isNone then "<u>" ++ f ++ "</u>" else f
  match style.link with
  | some link =>
    match link.url with
    | some url => if url ≠ "" then "[" ++ f ++ "](" ++ url ++ ")" else f
    | none => f
  | none => f

theorem convertTextRun_code_shape (run : DocsTextRun) (style : DocsTextStyle)
    (hstyle : run.textStyle = some style) (hcode : isCodeStyled style = true)
    (hcore : (detachTrailingNl (runRawText run)).1 ≠ "") :
    convertTextRun run =
      "`" ++ (detachTrailingNl (runRawText run)).1 ++ "`" ++
        (detachTrailingNl (runRawText run)).2 := by
  by_cases hnl : strEndsWith (run.content.getD "") "\n" = true
  · simp only [runRawText, detachTrailingNl, hnl, if_true] at hcore ⊢
    simp only [convertTextRun, hstyle, hcode, hnl, if_true]
    rw [if_pos hcore]
  · simp only [runRawText, detachTrailingNl, hnl, Bool.false_eq_true, if_false] at hcore ⊢
    simp only [convertTextRun, hstyle, hcode, hnl, if_true, Bool.false_eq_true, if_false]
    rw [if_pos hcore]

theorem convertTextRun_marker_shape (run : DocsTextRun) (style : DocsTextStyle)
    (hstyle : run.textStyle = some style) (hcode : isCodeStyled style = false)
    (hcore : (detachTrailingNl (runRawText run)).1 ≠ "") :
    convertTextRun run =
      specInlineMarkers style (detachTrailingNl (runRawText run)).1 ++
        (detachTrailingNl (runRawText run)).2 := by
  by_cases hnl : strEndsWith (run.content.getD "") "\n" = true
  · simp only [runRawText, detachTrailingNl, hnl, if_true] at hcore ⊢
    simp only [convertTextRun, hstyle, hcode, Bool.false_eq_true, if_false, hnl, if_true,
      specInlineMarkers]
    rw [if_neg (by simpa using hcore)]
  · simp only [runRawText, detachTrailingNl, hnl, Bool.false_eq_true, if_false] at hcore ⊢
    simp only [convertTextRun, hstyle, hcode, Bool.false_eq_true, if_false, hnl, if_true,
      specInlineMarkers]
    rw [if_neg (by simpa using hcore)]

/-! ## Claims C8 / C10 -/

/-- CLAIM C8: a monospace-font run is wrapped only in backticks; otherwise
bold+italic give `***text***`, bold `**text**`, italic `*text*`, then
strikethrough wraps in double tildes, underline without a link wraps in an
underline tag, and a link wraps the decorated text outermost; a trailing
newline is detached before wrapping and reattached after. In particular the
run `{text := "x", bold, italic}` renders containing `***x***`, and with
strikethrough added renders as `~~***x***~~`. -/
theorem spec_C8 :
    (strContainsSub
        (convertTextRun
          { content := some "x", textStyle := some { bold := true, italic := true } })
        "***x***" = true) ∧
    (convertTextRun
        { content := some "x",
          textStyle := some { bold := true, italic := true, strikethrough := true } } =
      "~~***x***~~") ∧
    (∀ (run : DocsTextRun) (style : DocsTextStyle),
      run.textStyle = some style → isCodeStyled style = true →
      (detachTrailingNl (runRawText run)).1 ≠ "" →
      convertTextRun run =
        "`" ++ (detachTrailingNl (runRawText run)).1 ++ "`" ++
          (detachTrailingNl (runRawText run)).2) ∧
    (∀ (run : DocsTextRun) (style : DocsTextStyle),
      run.textStyle = some style → isCodeStyled style = false →
      (detachTrailingNl (runRawText run)).1 ≠ "" →
      convertTextRun run =
        specInlineMarkers style (detachTrailingNl (runRawText run)).1 ++
          (detachTrailingNl (runRawText run)).2) :=
  ⟨by decide, by decide, convertTextRun_code_shape, convertTextRun_marker_shape⟩

/-- Witness for C8: the code and marker shapes applied at concrete runs. -/
theorem spec_C8_witness :
    convertTextRun
        { content := some "code\n",
          textStyle := some { weightedFontFamily := some { fontFamily := some "Roboto Mono" } } } =
      "`code`\n" ∧
    convertTextRun { content := some "b\n", textStyle := some { bold := true } } =
      "**b**\n" := by
  constructor
  · rw [spec_C8.2.2.1
      { content := some "code\n",
        textStyle := some { weightedFontFamily := some { fontFamily := some "Roboto Mono" } } }
      { weightedFontFamily := some { fontFamily := some "Roboto Mono" } }
      rfl (by decide) (by decide)]
    decide
  · rw [spec_C8.2.2.2
      { content := some "b\n", textStyle := some { bold := true } }
      { bold := true }
      rfl (by decide) (by decide)]
    decide

/-- CLAIM C10: a styled run whose content is empty or a single newline is
returned character-for-character unchanged, with no formatting markers
applied, whatever its style (including the monospace fonts). -/
theorem spec_C10 : ∀ style : DocsTextStyle,
    convertTextRun { content := some "", textStyle := some style } = "" ∧
    convertTextRun { content := some "\n", textStyle := some style } = "\n" :=
  fun style => ⟨convertTextRun_empty style, convertTextRun_newline style⟩

/-! ## Claim C9: the rendered markdown is trimmed -/

theorem head_dropWhile_not (p : Char → Bool) :
    ∀ (l : List Char) (c : Char), (l.dropWhile p).head? = some c → p c = false := by
  intro l
  induction l with
  | nil => intro c h; cases h
  | cons a as ih =>
    intro c h
    rw [List.dropWhile_cons] at h
    by_cases hpa : p a = true
    · rw [if_pos hpa] at h
      exact ih c h
    · rw [if_neg hpa] at h
      injection h with h2
      rw [← h2]
      simpa using hpa

theorem dropWhileEndWs_head (l : List Char) (c : Char)
    (h : (dropWhileEndWs l).head? = some c) : l.head? = some c := by
  cases l with
  | nil => cases h
  | cons a as =>
    simp only [dropWhileEndWs] at h
    by_cases he : ((dropWhileEndWs as).isEmpty && jsWs a) = true
    · rw [if_pos he] at h; cases h
    · rw [if_neg he] at h
      injection h with h2
      simp [h2]

theorem dropWhileEndWs_getLast (l : List Char) :
    ∀ c, (dropWhileEndWs l).getLast? = some c → jsWs c = false := by
  induction l with
  | nil => intro c h; cases h
  | cons a as ih =>
    intro c h
    simp only [dropWhileEndWs] at h
    by_cases he : ((dropWhileEndWs as).isEmpty && jsWs a) = true
    · rw [if_pos he] at h; cases h
    · rw [if_neg he] at h
      cases hr : dropWhileEndWs as with
      | nil =>
        rw [hr] at h
        injection h with h2
        rw [hr] at he
        simp only [List.isEmpty_nil, Bool.true_and] at he
        rw [← h2]
        simpa using he
      | cons b bs =>
        rw [hr] at h
        rw [List.getLast?_cons_cons] at h
        apply ih
        rw [hr]
        exact h

theorem jsTrim_head_not_ws (s : String) (c : Char)
    (h : (jsTrim s).data.head? = some c) : jsWs c = false := by
  have h2 := dropWhileEndWs_head _ _ h
  exact head_dropWhile_not jsWs s.data c h2

theorem jsTrim_getLast_not_ws (s : String) (c : Char)
    (h : (jsTrim s).data.getLast? = some c) : jsWs c = false :=
  dropWhileEndWs_getLast _ c h

theorem jsTrim_wsOnly (s : String) (h : isWsOnly s = true) : jsTrim s = "" := by
  have hd : s.data.dropWhile jsWs = [] := by
    rw [List.dropWhile_eq_nil_iff]
    intro x hx
    simp only [isWsOnly, List.all_eq_true] at h
    exact h x hx
  show String.mk (dropWhileEndWs (s.data.dropWhile jsWs)) = ""
  rw [hd]
  rfl

theorem isWsOnly_append (s t : String) (hs : isWsOnly s = true) (ht : isWsOnly t = true) :
    isWsOnly (s ++ t) = true := by
  simp only [isWsOnly, String.data_append, List.all_append, Bool.and_eq_true]
  exact ⟨hs, ht⟩

theorem foldl_render_wsOnly (lists : List (String × ListDef)) :
    ∀ (els : List StructuralElement),
      (∀ el ∈ els, isWsOnly (renderStructuralElement lists el) = true) →
      ∀ acc, isWsOnly acc = true →
        isWsOnly (els.foldl (fun md el => md ++ renderStructuralElement lists el) acc) = true := by
  intro els
  induction els with
  | nil => intro _ acc hacc; exact hacc
  | cons e es ih =>
    intro h acc hacc
    rw [List.foldl_cons]
    exact ih (fun el hel => h el (List.mem_cons_of_mem _ hel))
      _ (isWsOnly_append _ _ hacc (h e (List.mem_cons_self _ _)))

/-- CLAIM C9: the reverse renderer's result never begins or ends with
whitespace (the concatenated block output is trimmed before returning); a
document with no body content, and one whose blocks all render to
whitespace, yield the empty string. -/
theorem spec_C9 (docData : DocData) :
    (∀ c, (docsJsonToMarkdown docData).data.head? = some c → jsWs c = false) ∧
    (∀ c, (docsJsonToMarkdown docData).data.getLast? = some c → jsWs c = false) ∧
    (docData.body = none → docsJsonToMarkdown docData = "") ∧
    (∀ body, docData.body = some body → body.content = none →
      docsJsonToMarkdown docData = "") ∧
    (∀ body content, docData.body = some body → body.content = some content →
      (∀ el ∈ content,
        isWsOnly (renderStructuralElement (docData.lists.getD []) el) = true) →
      docsJsonToMarkdown docData = "") := by
  refine ⟨?_, ?_, ?_, ?_, ?_⟩
  · intro c h
    rcases hb : docData.body with _ | body
    · simp only [docsJsonToMarkdown, hb] at h; cases h
    · rcases hc : body.content with _ | content
      · simp only [docsJsonToMarkdown, hb, hc] at h; cases h
      · simp only [docsJsonToMarkdown, hb, hc] at h
        exact jsTrim_head_not_ws _ _ h
  · intro c h
    rcases hb : docData.body with _ | body
    · simp only [docsJsonToMarkdown, hb] at h; cases h
    · rcases hc : body.content with _ | content
      · simp only [docsJsonToMarkdown, hb, hc] at h; cases h
      · simp only [docsJsonToMarkdown, hb, hc] at h
        exact jsTrim_getLast_not_ws _ _ h
  · intro hb
    simp only [docsJsonToMarkdown, hb]
  · intro body hb hc
    simp only [docsJsonToMarkdown, hb, hc]
  · intro body content hb hc hws
    simp only [docsJsonToMarkdown, hb, hc]
    exact jsTrim_wsOnly _ (foldl_render_wsOnly _ _ hws "" (by decide))

/-- A document whose single paragraph holds only whitespace text. -/
def wsOnlyDoc : DocData :=
  { body := some
      { content := some
          [StructuralElement.paragraph
            { elements := some [{ textRun := some { content := some "  " } }] }] } }

/-- Witness for C9: the all-whitespace document yields the empty string. -/
theorem spec_C9_witness : docsJsonToMarkdown wsOnlyDoc = "" :=
  (spec_C9 wsOnlyDoc).2.2.2.2 _ _ rfl rfl (by decide)

/-! ## Projection lemmas for `insertText` -/

@[simp] theorem insertText_textRanges (t : String) (ctx : ConversionContext) :
    (insertText t ctx).textRanges = ctx.textRanges := rfl

@[simp] theorem insertText_currentIndex (t : String) (ctx : ConversionContext) :
    (insertText t ctx).currentIndex = ctx.currentIndex + t.length := rfl

@[simp] theorem insertText_insertRequests (t : String) (ctx : ConversionContext) :
    (insertText t ctx).insertRequests =
      ctx.insertRequests ++ [.insertText ctx.currentIndex ctx.tabId t] := rfl

@[simp] theorem insertText_formatRequests (t : String) (ctx : ConversionContext) :
    (insertText t ctx).formatRequests = ctx.formatRequests := rfl

@[simp] theorem insertText_tabId (t : String) (ctx : ConversionContext) :
    (insertText t ctx).tabId = ctx.tabId := rfl

@[simp] theorem insertText_hrRanges (t : String) (ctx : ConversionContext) :
    (insertText t ctx).hrRanges = ctx.hrRanges := rfl

@[simp] theorem insertText_paragraphRanges (t : String) (ctx : ConversionContext) :
    (insertText t ctx).paragraphRanges = ctx.paragraphRanges := rfl

@[simp] theorem insertText_pendingListItems (t : String) (ctx : ConversionContext) :
    (insertText t ctx).pendingListItems = ctx.pendingListItems := rfl

@[simp] theorem insertText_titleConsumed (t : String) (ctx : ConversionContext) :
    (insertText t ctx).titleConsumed = ctx.titleConsumed := rfl

@[simp] theorem insertText_firstHeadingAsTitle (t : String) (ctx : ConversionContext) :
    (insertText t ctx).firstHeadingAsTitle = ctx.firstHeadingAsTitle := rfl

@[simp] theorem lastInsertText_insertText (t : String) (ctx : ConversionContext) :
    lastInsertText (insertText t ctx) = some t := by
  simp [lastInsertText, List.getLast?_concat]

/-! ## Claim C6: code blocks -/

/-- The texts of the `insertText` requests of a request list. -/
def insertTextsOf (reqs : List Request) : List String :=
  reqs.filterMap (fun r => match r with | .insertText _ _ t => some t | _ => none)

@[simp] theorem insertTextsOf_nil : insertTextsOf [] = [] := rfl

@[simp] theorem insertTextsOf_append (a b : List Request) :
    insertTextsOf (a ++ b) = insertTextsOf a ++ insertTextsOf b :=
  List.filterMap_append ..

@[simp] theorem insertTextsOf_insert_single (i : Nat) (tab : Option String) (t : String) :
    insertTextsOf [.insertText i tab t] = [t] := rfl

@[simp] theorem insertTextsOf_cons_insert (i : Nat) (tab : Option String) (t : String)
    (l : List Request) :
    insertTextsOf (.insertText i tab t :: l) = t :: insertTextsOf l := by
  simp [insertTextsOf, List.filterMap_cons]

theorem codeLine_insert (line : String) (ctx : ConversionContext) :
    (if line.length > 0 then insertText line ctx else insertText " " ctx) =
      insertText (if line.length > 0 then line else " ") ctx := by
  split <;> rfl

theorem codeLineText_length (line : String) :
    (if line.length > 0 then line else " ").length = max line.length 1 := by
  by_cases h : line.length > 0
  · rw [if_pos h]; omega
  · rw [if_neg h]
    have h0 : line.length = 0 := by omega
    rw [h0]
    decide

/-- One iteration of the `handleCodeBlockToken` per-line loop (lines
448-461), named so its effect can be stated once. -/
def codeLineStep (line : String) (ctx : ConversionContext) : ConversionContext :=
  insertText "\n"
    { insertText (if line.length > 0 then line else " ") ctx with
      textRanges := ctx.textRanges ++
        [{ startIndex := ctx.currentIndex,
           endIndex := ctx.currentIndex + (if line.length > 0 then line else " ").length,
           formatting := { code := some true } }] }

theorem codeLineStep_textRanges (line : String) (ctx : ConversionContext) :
    (codeLineStep line ctx).textRanges = ctx.textRanges ++
      [{ startIndex := ctx.currentIndex,
         endIndex := ctx.currentIndex + (if line.length > 0 then line else " ").length,
         formatting := { code := some true } }] := rfl

theorem codeLineStep_insertRequests (line : String) (ctx : ConversionContext) :
    (codeLineStep line ctx).insertRequests = ctx.insertRequests ++
      [.insertText ctx.currentIndex ctx.tabId (if line.length > 0 then line else " "),
       .insertText (ctx.currentIndex + (if line.length > 0 then line else " ").length)
         ctx.tabId "\n"] := by
  simp [codeLineStep, List.append_assoc]

theorem lastInsertText_codeLineStep (line : String) (ctx : ConversionContext) :
    lastInsertText (codeLineStep line ctx) = some "\n" := by
  rw [codeLineStep]
  exact lastInsertText_insertText _ _

theorem handleCodeBlockLines_cons (line : String) (rest : List String)
    (ctx : ConversionContext) :
    handleCodeBlockLines (line :: rest) ctx =
      handleCodeBlockLines rest (codeLineStep line ctx) := by
  simp only [handleCodeBlockLines, codeLineStep, codeLine_insert, insertText_textRanges,
    insertText_currentIndex]

theorem handleCodeBlockLines_spec :
    ∀ (lines : List String) (ctx : ConversionContext),
      ∃ rs : List TextRange,
        (handleCodeBlockLines lines ctx).textRanges = ctx.textRanges ++ rs ∧
        rs.length = lines.length ∧
        (∀ p ∈ rs.zip lines,
          p.1.endIndex = p.1.startIndex + max p.2.length 1 ∧
          p.1.formatting = { code := some true }) ∧
        insertTextsOf (handleCodeBlockLines lines ctx).insertRequests =
          insertTextsOf ctx.insertRequests ++
            lines.flatMap (fun l => [(if l.length > 0 then l else " "), "\n"]) ∧
        (lines ≠ [] → lastInsertText (handleCodeBlockLines lines ctx) = some "\n") := by
  intro lines
  induction lines with
  | nil =>
    intro ctx
    exact ⟨[], by simp [handleCodeBlockLines], by simp, by simp, by simp [handleCodeBlockLines],
      by intro h; exact absurd rfl h⟩
  | cons line rest ih =>
    intro ctx
    obtain ⟨rs, h1, h2, h3, h4, h5⟩ := ih (codeLineStep line ctx)
    refine ⟨{ startIndex := ctx.currentIndex,
              endIndex := ctx.currentIndex + (if line.length > 0 then line else " ").length,
              formatting := { code := some true } } :: rs, ?_, ?_, ?_, ?_, ?_⟩
    · rw [handleCodeBlockLines_cons, h1, codeLineStep_textRanges]
      simp
    · simp [h2]
    · intro p hp
      rw [List.zip_cons_cons, List.mem_cons] at hp
      rcases hp with hp | hp
      · rw [hp]
        exact ⟨by simp [codeLineText_length], rfl⟩
      · exact h3 p hp
    · rw [handleCodeBlockLines_cons, h4, codeLineStep_insertRequests]
      simp [List.flatMap_cons]
    · intro _
      rw [handleCodeBlockLines_cons]
      cases hrest : rest with
      | nil =>
        show lastInsertText (codeLineStep line ctx) = some "\n"
        exact lastInsertText_codeLineStep _ _
      | cons b bs =>
        rw [← hrest]
        exact h5 (by simp [hrest])

/-- The statement of claim C6 at one fence/code_block token: one insertion
and one non-zero-length code-style range per line of the
trailing-newline-normalized content (an empty line contributing a single
space), each line's insertion followed by a newline, and a closing blank
line after the block. -/
def codeBlockProp (content : String) (ctx : ConversionContext) : Prop :=
  ∃ rs : List TextRange,
    (handleCodeBlockToken content ctx).textRanges = ctx.textRanges ++ rs ∧
    rs.length = (codeBlockLinesOf content).length ∧
    (∀ p ∈ rs.zip (codeBlockLinesOf content),
      p.1.startIndex < p.1.endIndex ∧
      p.1.endIndex = p.1.startIndex + max p.2.length 1 ∧
      p.1.formatting = { code := some true }) ∧
    insertTextsOf (handleCodeBlockToken content ctx).insertRequests =
      insertTextsOf ctx.insertRequests ++
        ((codeBlockLinesOf content).flatMap (fun l => [(if l.length > 0 then l else " "), "\n"]) ++
          ["\n"])

theorem splitCharsOnNl_ne_nil (l : List Char) : splitCharsOnNl l ≠ [] := by
  cases l with
  | nil => simp [splitCharsOnNl]
  | cons c cs =>
    simp only [splitCharsOnNl]
    by_cases h : c = '\n'
    · simp [h]
    · rw [if_neg h]
      cases splitCharsOnNl cs <;> simp

theorem strSplitNl_ne_nil (s : String) : strSplitNl s ≠ [] := by
  simp only [strSplitNl]
  intro h
  exact splitCharsOnNl_ne_nil _ (List.map_eq_nil_iff.mp h)

theorem codeBlockLinesOf_ne_nil (content : String) : codeBlockLinesOf content ≠ [] := by
  simp only [codeBlockLinesOf]
  generalize (if strEndsWith content "\n" = true then strDropLast content else content) = s
  split
  · exact strSplitNl_ne_nil _
  · simp

/-- CLAIM C6: for every fence/code_block token, the compiler removes one
trailing newline, splits on internal newlines, and emits one insertion plus
one code-style range per line (an empty line becoming a single inserted
space, so every per-line styled range is non-zero-length), with a closing
blank line ensured after the block. -/
theorem spec_C6 : ∀ (content : String) (ctx : ConversionContext),
    codeBlockProp content ctx := by
  intro content ctx
  obtain ⟨rs, h1, h2, h3, h4, h5⟩ := handleCodeBlockLines_spec (codeBlockLinesOf content) ctx
  have hlast := h5 (codeBlockLinesOf_ne_nil content)
  have hdd : lastInsertEndsWithDoubleNewline
      (handleCodeBlockLines (codeBlockLinesOf content) ctx) = false := by
    unfold lastInsertEndsWithDoubleNewline
    rw [hlast]
    decide
  have hstep : handleCodeBlockToken content ctx =
      insertText "\n" (handleCodeBlockLines (codeBlockLinesOf content) ctx) := by
    simp only [handleCodeBlockToken, hdd, Bool.not_false, if_true]
  refine ⟨rs, ?_, h2, ?_, ?_⟩
  · rw [hstep]
    simpa using h1
  · intro p hp
    obtain ⟨he, hf⟩ := h3 p hp
    refine ⟨by omega, he, hf⟩
  · rw [hstep]
    simp only [insertText_insertRequests, insertTextsOf_append, h4,
      insertTextsOf_insert_single]
    simp

/-- Witness for C6 at a concrete two-line fence content. -/
theorem spec_C6_witness : codeBlockProp "a\n\nb\n" (initialContext 1 none false) :=
  spec_C6 "a\n\nb\n" (initialContext 1 none false)

/-! ## Claim C3: error behaviour -/

/-- The single structural-violation error the compiler raises. -/
def structuralViolation : CompileException :=
  .markdownConversionError "List item found outside of list context"

mutual

/-- Whether a token is, or nests (through `inline` children), a
`list_item_open`. -/
def Token.hasItemOpen : Token → Bool
  | .list_item_open => true
  | .inline children => hasItemOpenIn children
  | _ => false

/-- Whether a token list contains a (possibly nested) `list_item_open`. -/
def hasItemOpenIn : List Token → Bool
  | [] => false
  | t :: ts => t.hasItemOpen || hasItemOpenIn ts

end

mutual

theorem processToken_error_eq : ∀ (t : Token) (ctx : ConversionContext)
    (e : CompileException), processToken t ctx = .error e → e = structuralViolation
  | .heading_open _, _, _, h => by simp [processToken] at h
  | .heading_close, _, _, h => by simp [processToken] at h
  | .paragraph_open, _, _, h => by simp [processToken] at h
  | .paragraph_close, _, _, h => by simp [processToken] at h
  | .text _, _, _, h => by simp [processToken] at h
  | .code_inline _, _, _, h => by simp [processToken] at h
  | .strong_open, _, _, h => by simp [processToken] at h
  | .strong_close, _, _, h => by simp [processToken] at h
  | .em_open, _, _, h => by simp [processToken] at h
  | .em_close, _, _, h => by simp [processToken] at h
  | .s_open, _, _, h => by simp [processToken] at h
  | .s_close, _, _, h => by simp [processToken] at h
  | .link_open _, _, _, h => by simp [processToken] at h
  | .link_close, _, _, h => by simp [processToken] at h
  | .bullet_list_open, _, _, h => by simp [processToken] at h
  | .bullet_list_close, _, _, h => by simp [processToken] at h
  | .ordered_list_open, _, _, h => by simp [processToken] at h
  | .ordered_list_close, _, _, h => by simp [processToken] at h
  | .list_item_open, ctx, e, h => by
    simp only [processToken, handleListItemOpen] at h
    cases hls : ctx.listStack with
    | nil =>
      rw [hls] at h
      injection h with h2
      exact h2.symm
    | cons a as =>
      rw [hls] at h
      simp at h
  | .list_item_close, _, _, h => by simp [processToken] at h
  | .softbreak, _, _, h => by simp [processToken] at h
  | .hardbreak, _, _, h => by simp [processToken] at h
  | .inline children, ctx, e, h =>
    processTokens_error_eq children ctx e (by simpa [processToken] using h)
  | .fence _, _, _, h => by simp [processToken] at h
  | .hr, _, _, h => by simp [processToken] at h
  | .skipped, _, _, h => by simp [processToken] at h

theorem processTokens_error_eq : ∀ (ts : List Token) (ctx : ConversionContext)
    (e : CompileException), processTokens ts ctx = .error e → e = structuralViolation
  | [], _, _, h => by simp [processTokens] at h
  | t :: ts, ctx, e, h => by
    simp only [processTokens] at h
    cases hpt : processToken t ctx with
    | ok c =>
      rw [hpt] at h
      exact processTokens_error_eq ts c e h
    | error e2 =>
      rw [hpt] at h
      injection h with h2
      rw [← h2]
      exact processToken_error_eq t ctx e2 hpt

end

mutual

theorem processToken_ok_of_no_item : ∀ (t : Token) (ctx : ConversionContext),
    t.hasItemOpen = false → ∃ ctx2, processToken t ctx = .ok ctx2
  | .heading_open l, ctx, _ => ⟨_, rfl⟩
  | .heading_close, ctx, _ => ⟨_, rfl⟩
  | .paragraph_open, ctx, _ => ⟨_, rfl⟩
  | .paragraph_close, ctx, _ => ⟨_, rfl⟩
  | .text _, ctx, _ => ⟨_, rfl⟩
  | .code_inline _, ctx, _ => ⟨_, rfl⟩
  | .strong_open, ctx, _ => ⟨_, rfl⟩
  | .strong_close, ctx, _ => ⟨_, rfl⟩
  | .em_open, ctx, _ => ⟨_, rfl⟩
  | .em_close, ctx, _ => ⟨_, rfl⟩
  | .s_open, ctx, _ => ⟨_, rfl⟩
  | .s_close, ctx, _ => ⟨_, rfl⟩
  | .link_open _, ctx, _ => ⟨_, rfl⟩
  | .link_close, ctx, _ => ⟨_, rfl⟩
  | .bullet_list_open, ctx, _ => ⟨_, rfl⟩
  | .bullet_list_close, ctx, _ => ⟨_, rfl⟩
  | .ordered_list_open, ctx, _ => ⟨_, rfl⟩
  | .ordered_list_close, ctx, _ => ⟨_, rfl⟩
  | .list_item_open, ctx, h => by simp [Token.hasItemOpen] at h
  | .list_item_close, ctx, _ => ⟨_, rfl⟩
  | .softbreak, ctx, _ => ⟨_, rfl⟩
  | .hardbreak, ctx, _ => ⟨_, rfl⟩
  | .inline children, ctx, h =>
    processTokens_ok_of_no_item children ctx (by simpa [Token.hasItemOpen] using h)
  | .fence _, ctx, _ => ⟨_, rfl⟩
  | .hr, ctx, _ => ⟨_, rfl⟩
  | .skipped, ctx, _ => ⟨_, rfl⟩

theorem processTokens_ok_of_no_item : ∀ (ts : List Token) (ctx : ConversionContext),
    hasItemOpenIn ts = false → ∃ ctx2, processTokens ts ctx = .ok ctx2
  | [], ctx, _ => ⟨ctx, rfl⟩
  | t :: ts, ctx, h => by
    simp only [hasItemOpenIn, Bool.or_eq_false_iff] at h
    obtain ⟨c1, hc1⟩ := processToken_ok_of_no_item t ctx h.1
    obtain ⟨c2, hc2⟩ := processTokens_ok_of_no_item ts c1 h.2
    exact ⟨c2, by simp only [processTokens, hc1, hc2]⟩

end

theorem popFormatting_empty (ctx : ConversionContext) (k : FormatKey)
    (h : ctx.formattingStack = []) : popFormatting ctx k = ctx := by
  cases ctx
  simp only at h
  subst h
  rfl

theorem listStack_pop_empty (ctx : ConversionContext) (h : ctx.listStack = []) :
    { ctx with listStack := ctx.listStack.tail } = ctx := by
  cases ctx
  simp only at h
  subst h
  rfl

theorem handleListItemClose_empty (ctx : ConversionContext)
    (h : ctx.openListItemStack = []) : handleListItemClose ctx = ctx := by
  rw [handleListItemClose]
  cases ctx
  simp only at h
  subst h
  rfl

theorem convertTokens_error_eq (tokens : List Token) (st : Nat) (tab : Option String)
    (flag : Bool) (e : CompileException)
    (h : convertTokensToRequests tokens st tab flag = .error e) : e = structuralViolation := by
  rw [convertTokensToRequests, compileContext] at h
  cases hp : processTokens tokens (initialContext st tab flag) with
  | ok c => rw [hp] at h; simp at h
  | error e2 =>
    rw [hp] at h
    injection h with h2
    have he2 := processTokens_error_eq _ _ _ hp
    rw [← h2, he2]
    rfl

/-- CLAIM C3: the compiler raises its structural-violation error exactly on a
list-item-open with no enclosing open list; every error that can leave the
token pass is that one error; a token free of (possibly nested)
list-item-open tokens never raises; unmatched formatting / list / list-item
closes are no-ops; and the boundary `catch` re-throws a
`MarkdownConversionError` unwrapped while wrapping any other exception, so
every error leaving `convertTokensToRequests` is the structural violation. -/
theorem spec_C3 :
    (∀ ctx : ConversionContext,
      processToken .list_item_open ctx = .error structuralViolation ↔ ctx.listStack = []) ∧
    (∀ (t : Token) (ctx : ConversionContext) (e : CompileException),
      processToken t ctx = .error e → e = structuralViolation) ∧
    (∀ (t : Token) (ctx : ConversionContext), t.hasItemOpen = false →
      ∃ ctx2, processToken t ctx = .ok ctx2) ∧
    (∀ ctx : ConversionContext, ctx.formattingStack = [] →
      processToken .strong_close ctx = .ok ctx ∧ processToken .em_close ctx = .ok ctx ∧
      processToken .s_close ctx = .ok ctx ∧ processToken .link_close ctx = .ok ctx) ∧
    (∀ ctx : ConversionContext, ctx.listStack = [] →
      processToken .bullet_list_close ctx = .ok ctx ∧
      processToken .ordered_list_close ctx = .ok ctx) ∧
    (∀ ctx : ConversionContext, ctx.openListItemStack = [] →
      processToken .list_item_close ctx = .ok ctx) ∧
    (∀ m, catchWrap (.markdownConversionError m) = .markdownConversionError m) ∧
    (∀ m, catchWrap (.otherException m) =
      .markdownConversionError ("Failed to convert markdown: " ++ m)) ∧
    (∀ (tokens : List Token) (st : Nat) (tab : Option String) (flag : Bool)
      (e : CompileException),
      convertTokensToRequests tokens st tab flag = .error e → e = structuralViolation) := by
  refine ⟨?_, processToken_error_eq, processToken_ok_of_no_item, ?_, ?_, ?_,
    fun _ => rfl, fun _ => rfl, convertTokens_error_eq⟩
  · intro ctx
    constructor
    · intro h
      cases hls : ctx.listStack with
      | nil => rfl
      | cons a as =>
        simp only [processToken, handleListItemOpen, hls] at h
        cases h
    · intro h
      simp only [processToken, handleListItemOpen, h]
      rfl
  · intro ctx h
    exact ⟨congrArg Except.ok (popFormatting_empty ctx .bold h),
           congrArg Except.ok (popFormatting_empty ctx .italic h),
           congrArg Except.ok (popFormatting_empty ctx .strikethrough h),
           congrArg Except.ok (popFormatting_empty ctx .link h)⟩
  · intro ctx h
    exact ⟨congrArg Except.ok (listStack_pop_empty ctx h),
           congrArg Except.ok (listStack_pop_empty ctx h)⟩
  · intro ctx h
    exact congrArg Except.ok (handleListItemClose_empty ctx h)

/-- Witness for C3: the structural violation, a no-op close and the boundary
wrap evaluated at concrete inputs. -/
theorem spec_C3_witness :
    processToken .list_item_open (initialContext 1 none false) =
      .error structuralViolation ∧
    processToken .strong_close (initialContext 1 none false) =
      .ok (initialContext 1 none false) ∧
    processToken .list_item_close (initialContext 1 none false) =
      .ok (initialContext 1 none false) ∧
    catchWrap (.otherException "boom") =
      .markdownConversionError ("Failed to convert markdown: " ++ "boom") :=
  ⟨(spec_C3.1 _).mpr rfl,
   (spec_C3.2.2.2.1 _ rfl).1,
   spec_C3.2.2.2.2.2.1 _ rfl,
   spec_C3.2.2.2.2.2.2.2.1 "boom"⟩

/-! ## Claim C5: task-list checkbox prefixes -/

theorem getElem?_set_of_some {α : Type} :
    ∀ (l : List α) (i : Nat) (a b : α), l[i]? = some a → (l.set i b)[i]? = some b := by
  intro l
  induction l with
  | nil => intro i a b h; cases i <;> cases h
  | cons x xs ih =>
    intro i a b h
    cases i with
    | zero => simp
    | succ j =>
      simp only [List.getElem?_cons_succ] at h
      simp only [List.set_cons_succ, List.getElem?_cons_succ]
      exact ih j a b h

theorem getCurrentOpenListItem_eq (ctx : ConversionContext) (idx : Nat)
    (rest : List Nat) (item : PendingListItem)
    (hstack : ctx.openListItemStack = idx :: rest)
    (hitem : ctx.pendingListItems[idx]? = some item) :
    getCurrentOpenListItem ctx = some item := by
  simp [getCurrentOpenListItem, hstack, hitem]

theorem modifyCurrentOpenListItem_eq (ctx : ConversionContext) (idx : Nat)
    (rest : List Nat) (item : PendingListItem)
    (hstack : ctx.openListItemStack = idx :: rest)
    (hitem : ctx.pendingListItems[idx]? = some item)
    (f : PendingListItem → PendingListItem) :
    modifyCurrentOpenListItem ctx f =
      { ctx with pendingListItems := ctx.pendingListItems.set idx (f item) } := by
  simp [modifyCurrentOpenListItem, hstack, hitem]

/-- CLAIM C5 general part: when the first text token inside an open list item
matches the task-checkbox prefix, the item's preset is upgraded to checkbox
(and marked processed), and only the text with the prefix stripped is
inserted (nothing at all when the prefix was the whole text). -/
theorem handleTextToken_taskPrefix (content : String) (ctx : ConversionContext)
    (idx : Nat) (rest : List Nat) (item : PendingListItem) (n : Nat)
    (hstack : ctx.openListItemStack = idx :: rest)
    (hitem : ctx.pendingListItems[idx]? = some item)
    (hproc : item.taskPrefixProcessed = false)
    (hpre : taskPrefixLen content.data = some n)
    (hne : content ≠ "") :
    (handleTextToken content ctx).pendingListItems[idx]? =
      some { item with taskPrefixProcessed := true, bulletPreset := .bulletCheckbox } ∧
    insertTextsOf (handleTextToken content ctx).insertRequests =
      insertTextsOf ctx.insertRequests ++
        (if (⟨content.data.drop n⟩ : String) = "" then []
         else [(⟨content.data.drop n⟩ : String)]) := by
  have h1 : modifyCurrentOpenListItem ctx
      (fun item => { item with taskPrefixProcessed := true }) =
      { ctx with pendingListItems :=
          ctx.pendingListItems.set idx { item with taskPrefixProcessed := true } } :=
    modifyCurrentOpenListItem_eq ctx idx rest item hstack hitem _
  have hitem1 : ({ ctx with pendingListItems :=
      ctx.pendingListItems.set idx { item with taskPrefixProcessed := true } } :
      ConversionContext).pendingListItems[idx]? =
      some { item with taskPrefixProcessed := true } :=
    getElem?_set_of_some _ idx item _ hitem
  have h2 : modifyCurrentOpenListItem
      { ctx with pendingListItems :=
          ctx.pendingListItems.set idx { item with taskPrefixProcessed := true } }
      (fun item => { item with bulletPreset := .bulletCheckbox }) =
      { ctx with pendingListItems :=
          ((ctx.pendingListItems.set idx { item with taskPrefixProcessed := true }).set idx
            { item with taskPrefixProcessed := true, bulletPreset := .bulletCheckbox }) } := by
    have := modifyCurrentOpenListItem_eq
      { ctx with pendingListItems :=
          ctx.pendingListItems.set idx { item with taskPrefixProcessed := true } }
      idx rest { item with taskPrefixProcessed := true } hstack hitem1
      (fun item => { item with bulletPreset := .bulletCheckbox })
    exact this
  have hset2 : ((ctx.pendingListItems.set idx { item with taskPrefixProcessed := true }).set idx
      { item with taskPrefixProcessed := true, bulletPreset := .bulletCheckbox })[idx]? =
      some { item with taskPrefixProcessed := true, bulletPreset := .bulletCheckbox } :=
    getElem?_set_of_some _ idx { item with taskPrefixProcessed := true } _ hitem1
  simp only [handleTextToken, if_neg hne, taskPrefixPhase, textEmitPhase,
    getCurrentOpenListItem_eq ctx idx rest item hstack hitem, hproc, Bool.not_false,
    if_true, hpre, h1, h2]
  by_cases hdrop : (⟨content.data.drop n⟩ : String) = ""
  · rw [if_pos hdrop]
    simp only [hdrop, if_pos rfl]
    exact ⟨hset2, by simp⟩
  · rw [if_neg hdrop]
    simp only [if_neg hdrop]
    constructor
    · split <;> simpa using hset2
    · split <;> simp

/-- Whether a request is a `createParagraphBullets` operation. -/
def isBulletReq : Request → Bool
  | .createParagraphBullets .. => true
  | _ => false

/-- Whether a request is an `insertText` operation. -/
def isInsertReq : Request → Bool
  | .insertText .. => true
  | _ => false

/-- The preset of a bullet-range request. -/
def bulletPresetOf : Request → Option BulletPreset
  | .createParagraphBullets _ _ _ p => some p
  | _ => none

/-- The text of an insertion request. -/
def insertTextOf : Request → Option String
  | .insertText _ _ t => some t
  | _ => none

/-- CLAIM C5: a first text token beginning with a task-checkbox prefix
upgrades the item's preset to checkbox and is inserted with the prefix
stripped; compiling the tokens of `"- [x] done\n- [ ] todo"` yields exactly
one bullet range, with checkbox preset, and no insertion contains the
literal `[x]` or `[ ]`. -/
theorem spec_C5 :
    (∀ (content : String) (ctx : ConversionContext) (idx : Nat) (rest : List Nat)
       (item : PendingListItem) (n : Nat),
      ctx.openListItemStack = idx :: rest →
      ctx.pendingListItems[idx]? = some item →
      item.taskPrefixProcessed = false →
      taskPrefixLen content.data = some n →
      content ≠ "" →
      (handleTextToken content ctx).pendingListItems[idx]? =
        some { item with taskPrefixProcessed := true, bulletPreset := .bulletCheckbox } ∧
      insertTextsOf (handleTextToken content ctx).insertRequests =
        insertTextsOf ctx.insertRequests ++
          (if (⟨content.data.drop n⟩ : String) = "" then []
           else [(⟨content.data.drop n⟩ : String)])) ∧
    (∃ reqs, convertTokensToRequests tokensTaskList 1 none false = .ok reqs ∧
      (reqs.filter isBulletReq).length = 1 ∧
      (∀ r ∈ reqs, ((bulletPresetOf r).all (· == .bulletCheckbox)) = true) ∧
      (∀ r ∈ reqs, ((insertTextOf r).all
        (fun t => !strContainsSub t "[x]" && !strContainsSub t "[ ]")) = true)) := by
  refine ⟨?_, ?_⟩
  · intro content ctx idx rest item n h1 h2 h3 h4 h5
    exact handleTextToken_taskPrefix content ctx idx rest item n h1 h2 h3 h4 h5
  · refine ⟨_, convertTaskList_eq, ?_, ?_, ?_⟩ <;> decide

/-- The compiler state inside a freshly opened level-0 bullet item, used to
witness the task-prefix clause. -/
def ctxOpenItem : ConversionContext :=
  { currentIndex := 1
    listStack := [{ type := false, level := 0 }]
    pendingListItems := [{ startIndex := 1, endIndex := none, nestingLevel := 0,
                           bulletPreset := .bulletDiscCircleSquare,
                           taskPrefixProcessed := false }]
    openListItemStack := [0] }

/-- Witness for C5: the task-prefix upgrade at a concrete open item. -/
theorem spec_C5_witness :
    (handleTextToken "[x] go" ctxOpenItem).pendingListItems[0]? =
      some { startIndex := 1, endIndex := none, nestingLevel := 0,
             bulletPreset := .bulletCheckbox, taskPrefixProcessed := true } ∧
    insertTextsOf (handleTextToken "[x] go" ctxOpenItem).insertRequests =
      insertTextsOf ctxOpenItem.insertRequests ++
        (if (⟨"[x] go".data.drop 4⟩ : String) = "" then []
         else [(⟨"[x] go".data.drop 4⟩ : String)]) :=
  spec_C5.1 "[x] go" ctxOpenItem 0 [] _ 4 rfl rfl rfl (by decide) (by decide)

/-! ## The compiler step invariant (claims C2, C4, C7) -/

/-- Length contributed by a request to the running cursor: the length of its
text for insertions, `0` otherwise. -/
def insertedLen : Request → Nat
  | .insertText _ _ t => t.length
  | _ => 0

/-- Total inserted text length of a request list. -/
def totalInsertedLen (reqs : List Request) : Nat :=
  (reqs.map insertedLen).sum

/-- Number of TITLE paragraph ranges. -/
def titleCount (rs : List ParagraphRange) : Nat :=
  (rs.filter (fun r => r.namedStyleType == some "TITLE")).length

/-- How many TITLE ranges the state may hold: one once the first H1 has been
promoted (flag on and consumed), zero otherwise. -/
def titleBound (ctx : ConversionContext) : Nat :=
  if ctx.firstHeadingAsTitle && ctx.titleConsumed then 1 else 0

/-- Relation between the compiler state before and after processing any
token (or token sequence): insertions only grow by `insertText` requests and
the cursor advances by exactly the inserted length; format requests, the tab
and the title flag are untouched; `titleConsumed` is monotone; non-zero-length
text and hr ranges stay non-zero-length; and the TITLE-range bound is
preserved. -/
structure StepInv (ctx ctx2 : ConversionContext) : Prop where
  insertExt : ∃ added, ctx2.insertRequests = ctx.insertRequests ++ added ∧
    (∀ r ∈ added, isInsertReq r = true) ∧
    ctx2.currentIndex = ctx.currentIndex + totalInsertedLen added
  formatEq : ctx2.formatRequests = ctx.formatRequests
  tabEq : ctx2.tabId = ctx.tabId
  flagEq : ctx2.firstHeadingAsTitle = ctx.firstHeadingAsTitle
  titleMono : ctx.titleConsumed = true → ctx2.titleConsumed = true
  textOk : (∀ r ∈ ctx.textRanges, r.startIndex < r.endIndex) →
    ∀ r ∈ ctx2.textRanges, r.startIndex < r.endIndex
  hrOk : (∀ r ∈ ctx.hrRanges, r.1 < r.2) → ∀ r ∈ ctx2.hrRanges, r.1 < r.2
  titleInv : titleCount ctx.paragraphRanges ≤ titleBound ctx →
    titleCount ctx2.paragraphRanges ≤ titleBound ctx2

theorem stepInv_refl (ctx : ConversionContext) : StepInv ctx ctx :=
  ⟨⟨[], by simp, by simp, by simp [totalInsertedLen]⟩, rfl, rfl, rfl, id, id, id, id⟩

theorem StepInv.trans {a b c : ConversionContext}
    (h1 : StepInv a b) (h2 : StepInv b c) : StepInv a c := by
  obtain ⟨x, hx1, hx2, hx3⟩ := h1.insertExt
  obtain ⟨y, hy1, hy2, hy3⟩ := h2.insertExt
  refine ⟨⟨x ++ y, ?_, ?_, ?_⟩, h2.formatEq.trans h1.formatEq,
    h2.tabEq.trans h1.tabEq, h2.flagEq.trans h1.flagEq,
    fun h => h2.titleMono (h1.titleMono h),
    fun h => h2.textOk (h1.textOk h), fun h => h2.hrOk (h1.hrOk h),
    fun h => h2.titleInv (h1.titleInv h)⟩
  · rw [hy1, hx1, List.append_assoc]
  · intro r hr
    rcases List.mem_append.mp hr with hr | hr
    · exact hx2 r hr
    · exact hy2 r hr
  · rw [hy3, hx3, totalInsertedLen, totalInsertedLen, totalInsertedLen,
      List.map_append, List.sum_append, Nat.add_assoc]

theorem stepInv_aux (ctx : ConversionContext) (fs : List FormattingState)
    (ls : List ListState) (ps : List PendingListItem) (os : List Nat)
    (cps chl : Option Nat) :
    StepInv ctx
      ({ ctx with
          formattingStack := fs
          listStack := ls
          pendingListItems := ps
          openListItemStack := os
          currentParagraphStart := cps
          currentHeadingLevel := chl }) :=
  ⟨⟨[], by simp, by simp, by simp [totalInsertedLen]⟩, rfl, rfl, rfl, id, id, id, id⟩

theorem stepInv_insertText (t : String) (ctx : ConversionContext) :
    StepInv ctx (insertText t ctx) := by
  refine ⟨⟨[.insertText ctx.currentIndex ctx.tabId t], by simp, ?_, ?_⟩,
    rfl, rfl, rfl, id, id, id, id⟩
  · intro r hr
    rw [List.mem_singleton] at hr
    rw [hr]
    rfl
  · simp [totalInsertedLen, insertedLen]

theorem stepInv_pushTextRange (ctx : ConversionContext) (r : TextRange)
    (h : r.startIndex < r.endIndex) :
    StepInv ctx { ctx with textRanges := ctx.textRanges ++ [r] } := by
  refine ⟨⟨[], by simp, by simp, by simp [totalInsertedLen]⟩, rfl, rfl, rfl, id, ?_, id, id⟩
  intro hall r2 hr2
  rcases List.mem_append.mp hr2 with hr2 | hr2
  · exact hall r2 hr2
  · rw [List.mem_singleton] at hr2
    rw [hr2]
    exact h

theorem stepInv_pushHrRange (ctx : ConversionContext) (a b : Nat) (h : a < b) :
    StepInv ctx { ctx with hrRanges := ctx.hrRanges ++ [(a, b)] } := by
  refine ⟨⟨[], by simp, by simp, by simp [totalInsertedLen]⟩, rfl, rfl, rfl, id, id, ?_, id⟩
  intro hall r2 hr2
  rcases List.mem_append.mp hr2 with hr2 | hr2
  · exact hall r2 hr2
  · rw [List.mem_singleton] at hr2
    rw [hr2]
    exact h

theorem strLength_pos (s : String) (h : s ≠ "") : 0 < s.length := by
  cases s with
  | mk data =>
    cases data with
    | nil => exact absurd rfl h
    | cons c cs => simp [String.length]

theorem heading_ne_title (l : Nat) : ("HEADING_" ++ toString l) ≠ "TITLE" := by
  intro h
  have h2 := congrArg (fun s => s.data.head?) h
  simp only at h2
  have hl : ("HEADING_" ++ toString l).data.head? = some 'H' := by
    rw [String.data_append]
    rfl
  rw [hl] at h2
  cases h2

theorem titleCount_append (l : List ParagraphRange) (e : ParagraphRange) :
    titleCount (l ++ [e]) =
      titleCount l + (if e.namedStyleType == some "TITLE" then 1 else 0) := by
  rw [titleCount, titleCount, List.filter_append, List.length_append]
  congr 1
  cases he : (e.namedStyleType == some "TITLE") <;> simp [List.filter_singleton, he]

theorem stepInv_handleHeadingOpen (level : Nat) (ctx : ConversionContext) :
    StepInv ctx (handleHeadingOpen level ctx) := by
  rw [handleHeadingOpen]
  split
  · exact stepInv_aux _ _ _ _ _ _ _
  · exact stepInv_refl _

theorem titleConsumed_push_title (ctx : ConversionContext) (startIdx : Nat)
    (hflag : ctx.firstHeadingAsTitle = true) (hcons : ctx.titleConsumed = false)
    (hcount : titleCount ctx.paragraphRanges ≤ titleBound ctx) :
    titleCount (ctx.paragraphRanges ++
        [{ startIndex := startIdx, endIndex := ctx.currentIndex,
           namedStyleType := some "TITLE" }]) ≤ 1 := by
  rw [titleCount_append]
  rw [titleBound, hflag, hcons] at hcount
  simp only [Bool.and_false, Bool.false_eq_true, if_false, Nat.le_zero] at hcount
  simp [hcount]

theorem titleCount_push_heading (rs : List ParagraphRange) (startIdx endIdx level : Nat) :
    titleCount (rs ++
        [{ startIndex := startIdx, endIndex := endIdx,
           namedStyleType := some ("HEADING_" ++ toString level) }]) = titleCount rs := by
  rw [titleCount_append]
  have hne : (some ("HEADING_" ++ toString level) == some "TITLE") = false := by
    rw [beq_eq_false_iff_ne]
    simp [heading_ne_title level]
  simp [hne]

theorem stepInv_handleHeadingClose (ctx : ConversionContext) :
    StepInv ctx (handleHeadingClose ctx) := by
  simp only [handleHeadingClose]
  split
  · next level startIdx _ _ =>
    split
    · by_cases hT : (ctx.firstHeadingAsTitle && ! ctx.titleConsumed && level == 1) = true
      · simp only [hT, if_true]
        refine StepInv.trans (StepInv.trans ?_ (stepInv_insertText _ _))
          (stepInv_aux _ _ _ _ _ _ _)
        obtain ⟨hfc, -⟩ := Bool.and_eq_true_iff.mp hT
        obtain ⟨hflag, hcons⟩ := Bool.and_eq_true_iff.mp hfc
        rw [Bool.not_eq_true'] at hcons
        refine ⟨⟨[], by simp, by simp, by simp [totalInsertedLen]⟩, rfl, rfl, rfl,
          fun _ => rfl, id, id, ?_⟩
        intro hcount
        have hb : titleBound
            ({ { ctx with titleConsumed := true } with
                paragraphRanges := ctx.paragraphRanges ++
                  [{ startIndex := startIdx, endIndex := ctx.currentIndex,
                     namedStyleType := some "TITLE" }] } : ConversionContext) = 1 := by
          simp [titleBound, hflag]
        rw [hb]
        exact titleConsumed_push_title ctx startIdx hflag hcons hcount
      · rw [Bool.not_eq_true] at hT
        simp only [hT, Bool.false_eq_true, if_false]
        refine StepInv.trans (StepInv.trans ?_ (stepInv_insertText _ _))
          (stepInv_aux _ _ _ _ _ _ _)
        refine ⟨⟨[], by simp, by simp, by simp [totalInsertedLen]⟩, rfl, rfl, rfl,
          id, id, id, ?_⟩
        intro hcount
        show titleCount (ctx.paragraphRanges ++
          [{ startIndex := startIdx, endIndex := ctx.currentIndex,
             namedStyleType := some ("HEADING_" ++ toString level) }]) ≤ _
        rw [titleCount_push_heading]
        exact hcount
    · exact stepInv_refl _
  · exact stepInv_refl _

theorem stepInv_handleHorizontalRule (ctx0 : ConversionContext) :
    StepInv ctx0 (handleHorizontalRule ctx0) := by
  rw [handleHorizontalRule]
  have h1 : StepInv ctx0
      (if ! lastInsertEndsWithNewline ctx0 then insertText "\n" ctx0 else ctx0) := by
    split
    · exact stepInv_insertText _ _
    · exact stepInv_refl _
  generalize (if ! lastInsertEndsWithNewline ctx0 then insertText "\n" ctx0 else ctx0) = c1
    at h1 ⊢
  refine (h1.trans (stepInv_insertText "\n" c1)).trans
    (stepInv_pushHrRange _ c1.currentIndex (insertText "\n" c1).currentIndex ?_)
  rw [insertText_currentIndex]
  have : ("\n" : String).length = 1 := rfl
  omega

theorem stepInv_handleParagraphOpen (ctx : ConversionContext) :
    StepInv ctx (handleParagraphOpen ctx) := by
  rw [handleParagraphOpen]
  split
  · exact stepInv_aux _ _ _ _ _ _ _
  · exact stepInv_refl _

theorem stepInv_modifyCurrent (ctx : ConversionContext)
    (f : PendingListItem → PendingListItem) :
    StepInv ctx (modifyCurrentOpenListItem ctx f) := by
  rw [modifyCurrentOpenListItem]
  split
  · exact stepInv_refl _
  · split
    · exact stepInv_aux _ _ _ _ _ _ _
    · exact stepInv_refl _

theorem stepInv_handleParagraphClose (ctx0 : ConversionContext) :
    StepInv ctx0 (handleParagraphClose ctx0) := by
  simp only [handleParagraphClose]
  have h1 : StepInv ctx0
      (if ! lastInsertEndsWithNewline ctx0 then insertText "\n" ctx0 else ctx0) := by
    split
    · exact stepInv_insertText _ _
    · exact stepInv_refl _
  generalize (if ! lastInsertEndsWithNewline ctx0 then insertText "\n" ctx0 else ctx0) = c1
    at h1 ⊢
  refine h1.trans ?_
  split
  · split <;>
      first
        | exact (stepInv_modifyCurrent _ _).trans (stepInv_aux _ _ _ _ _ _ _)
        | exact stepInv_aux _ _ _ _ _ _ _
        | (split <;>
            first
              | exact (stepInv_modifyCurrent _ _).trans (stepInv_aux _ _ _ _ _ _ _)
              | exact stepInv_aux _ _ _ _ _ _ _)
  · exact stepInv_aux _ _ _ _ _ _ _

theorem stepInv_taskPrefixPhase (content : String) (ctx0 : ConversionContext) :
    StepInv ctx0 (taskPrefixPhase content ctx0).2 := by
  rw [taskPrefixPhase]
  cases getCurrentOpenListItem ctx0 with
  | none => exact stepInv_refl _
  | some cli =>
    simp only
    split
    · cases taskPrefixLen content.data with
      | none => exact stepInv_modifyCurrent _ _
      | some n => exact (stepInv_modifyCurrent _ _).trans (stepInv_modifyCurrent _ _)
    · exact stepInv_refl _

theorem stepInv_textEmitPhase (text : String) (ctx : ConversionContext) :
    StepInv ctx (textEmitPhase text ctx) := by
  rw [textEmitPhase]
  split
  · exact stepInv_refl _
  · next hne =>
    simp only
    split
    · refine (stepInv_insertText _ _).trans
        (stepInv_pushTextRange _
          { startIndex := ctx.currentIndex, endIndex := ctx.currentIndex + text.length,
            formatting := mergeFormattingStack (insertText text ctx).formattingStack } ?_)
      have := strLength_pos text hne
      simp only
      omega
    · exact stepInv_insertText _ _

theorem stepInv_handleTextToken (content : String) (ctx0 : ConversionContext) :
    StepInv ctx0 (handleTextToken content ctx0) := by
  rw [handleTextToken]
  split
  · exact stepInv_refl _
  · exact (stepInv_taskPrefixPhase content ctx0).trans (stepInv_textEmitPhase _ _)

theorem stepInv_handleCodeInlineToken (content : String) (ctx : ConversionContext) :
    StepInv ctx (handleCodeInlineToken content ctx) := by
  rw [handleCodeInlineToken]
  exact ((stepInv_aux _ _ _ _ _ _ _).trans (stepInv_handleTextToken _ _)).trans
    (stepInv_aux _ _ _ _ _ _ _)

theorem stepInv_codeLineStep (line : String) (ctx : ConversionContext) :
    StepInv ctx (codeLineStep line ctx) := by
  rw [codeLineStep]
  refine ((stepInv_insertText _ _).trans
    (stepInv_pushTextRange (insertText (if line.length > 0 then line else " ") ctx)
      { startIndex := ctx.currentIndex,
        endIndex := ctx.currentIndex + (if line.length > 0 then line else " ").length,
        formatting := { code := some true } } ?_)).trans (stepInv_insertText _ _)
  have := codeLineText_length line
  simp only
  omega

theorem stepInv_handleCodeBlockLines :
    ∀ (lines : List String) (ctx : ConversionContext),
      StepInv ctx (handleCodeBlockLines lines ctx) := by
  intro lines
  induction lines with
  | nil => intro ctx; exact stepInv_refl _
  | cons line rest ih =>
    intro ctx
    rw [handleCodeBlockLines_cons]
    exact (stepInv_codeLineStep line ctx).trans (ih _)

theorem stepInv_handleCodeBlockToken (content : String) (ctx : ConversionContext) :
    StepInv ctx (handleCodeBlockToken content ctx) := by
  simp only [handleCodeBlockToken]
  refine (stepInv_handleCodeBlockLines (codeBlockLinesOf content) ctx).trans ?_
  split
  · exact stepInv_insertText _ _
  · exact stepInv_refl _

theorem stepInv_popFormatting (ctx : ConversionContext) (k : FormatKey) :
    StepInv ctx (popFormatting ctx k) :=
  stepInv_aux _ _ _ _ _ _ _

theorem stepInv_handleListItemOpen (ctx ctx2 : ConversionContext)
    (h : handleListItemOpen ctx = .ok ctx2) : StepInv ctx ctx2 := by
  rw [handleListItemOpen] at h
  cases hls : ctx.listStack with
  | nil => rw [hls] at h; cases h
  | cons currentList restStack =>
    rw [hls] at h
    simp only at h
    injection h with h2
    rw [← h2]
    refine ?_
    have hbase : StepInv ctx
        (if currentList.level > 0 then insertText (strRepeat "\t" currentList.level) ctx
         else ctx) := by
      split
      · exact stepInv_insertText _ _
      · exact stepInv_refl _
    generalize (if currentList.level > 0 then insertText (strRepeat "\t" currentList.level) ctx
      else ctx) = c1 at hbase ⊢
    exact (hbase.trans (stepInv_aux _ _ _ _ _ _ _)).trans (stepInv_aux _ _ _ _ _ _ _)

theorem stepInv_handleListItemClose (ctx0 : ConversionContext) :
    StepInv ctx0 (handleListItemClose ctx0) := by
  simp only [handleListItemClose]
  split
  · exact stepInv_refl _
  · have hmid : ∀ c : ConversionContext, StepInv ctx0 c →
        StepInv ctx0 (if ! lastInsertEndsWithNewline c then insertText "\n" c else c) := by
      intro c hc
      split
      · exact hc.trans (stepInv_insertText _ _)
      · exact hc
    apply hmid
    split
    · split <;>
        first
          | exact stepInv_aux _ _ _ _ _ _ _
          | exact (stepInv_aux _ _ _ _ _ _ _).trans (stepInv_aux _ _ _ _ _ _ _)
          | (split <;>
              first
                | exact stepInv_aux _ _ _ _ _ _ _
                | exact (stepInv_aux _ _ _ _ _ _ _).trans (stepInv_aux _ _ _ _ _ _ _)
                | (split <;>
                    first
                      | exact stepInv_aux _ _ _ _ _ _ _
                      | exact (stepInv_aux _ _ _ _ _ _ _).trans
                          (stepInv_aux _ _ _ _ _ _ _)))
    · exact stepInv_aux _ _ _ _ _ _ _

mutual

/-- Every successful step of `processToken` satisfies the step invariant. -/
theorem processToken_stepInv : ∀ (t : Token) (ctx ctx2 : ConversionContext),
    processToken t ctx = .ok ctx2 → StepInv ctx ctx2
  | .heading_open level, ctx, ctx2, h => by
    injection h with h2
    exact h2 ▸ stepInv_handleHeadingOpen level ctx
  | .heading_close, ctx, ctx2, h => by
    injection h with h2
    exact h2 ▸ stepInv_handleHeadingClose ctx
  | .paragraph_open, ctx, ctx2, h => by
    injection h with h2
    exact h2 ▸ stepInv_handleParagraphOpen ctx
  | .paragraph_close, ctx, ctx2, h => by
    injection h with h2
    exact h2 ▸ stepInv_handleParagraphClose ctx
  | .text content, ctx, ctx2, h => by
    injection h with h2
    exact h2 ▸ stepInv_handleTextToken content ctx
  | .code_inline content, ctx, ctx2, h => by
    injection h with h2
    exact h2 ▸ stepInv_handleCodeInlineToken content ctx
  | .strong_open, ctx, ctx2, h => by
    injection h with h2
    exact h2 ▸ stepInv_aux _ _ _ _ _ _ _
  | .strong_close, ctx, ctx2, h => by
    injection h with h2
    exact h2 ▸ stepInv_popFormatting ctx .bold
  | .em_open, ctx, ctx2, h => by
    injection h with h2
    exact h2 ▸ stepInv_aux _ _ _ _ _ _ _
  | .em_close, ctx, ctx2, h => by
    injection h with h2
    exact h2 ▸ stepInv_popFormatting ctx .italic
  | .s_open, ctx, ctx2, h => by
    injection h with h2
    exact h2 ▸ stepInv_aux _ _ _ _ _ _ _
  | .s_close, ctx, ctx2, h => by
    injection h with h2
    exact h2 ▸ stepInv_popFormatting ctx .strikethrough
  | .link_open href, ctx, ctx2, h => by
    injection h with h2
    refine h2 ▸ ?_
    cases href with
    | none => exact stepInv_refl _
    | some u =>
      simp only
      split
      · exact stepInv_aux _ _ _ _ _ _ _
      · exact stepInv_refl _
  | .link_close, ctx, ctx2, h => by
    injection h with h2
    exact h2 ▸ stepInv_popFormatting ctx .link
  | .bullet_list_open, ctx, ctx2, h => by
    injection h with h2
    exact h2 ▸ stepInv_aux _ _ _ _ _ _ _
  | .bullet_list_close, ctx, ctx2, h => by
    injection h with h2
    exact h2 ▸ stepInv_aux _ _ _ _ _ _ _
  | .ordered_list_open, ctx, ctx2, h => by
    injection h with h2
    exact h2 ▸ stepInv_aux _ _ _ _ _ _ _
  | .ordered_list_close, ctx, ctx2, h => by
    injection h with h2
    exact h2 ▸ stepInv_aux _ _ _ _ _ _ _
  | .list_item_open, ctx, ctx2, h => stepInv_handleListItemOpen ctx ctx2 h
  | .list_item_close, ctx, ctx2, h => by
    injection h with h2
    exact h2 ▸ stepInv_handleListItemClose ctx
  | .softbreak, ctx, ctx2, h => by
    injection h with h2
    exact h2 ▸ stepInv_insertText " " ctx
  | .hardbreak, ctx, ctx2, h => by
    injection h with h2
    exact h2 ▸ stepInv_insertText "\n" ctx
  | .inline children, ctx, ctx2, h => processTokens_stepInv children ctx ctx2 h
  | .fence content, ctx, ctx2, h => by
    injection h with h2
    exact h2 ▸ stepInv_handleCodeBlockToken content ctx
  | .hr, ctx, ctx2, h => by
    injection h with h2
    exact h2 ▸ stepInv_handleHorizontalRule ctx
  | .skipped, ctx, ctx2, h => by
    injection h with h2
    exact h2 ▸ stepInv_refl ctx

/-- The step invariant for whole token sequences. -/
theorem processTokens_stepInv : ∀ (ts : List Token) (ctx ctx2 : ConversionContext),
    processTokens ts ctx = .ok ctx2 → StepInv ctx ctx2
  | [], ctx, ctx2, h => by
    injection h with h2
    exact h2 ▸ stepInv_refl ctx
  | t :: ts, ctx, ctx2, h => by
    rw [processTokens] at h
    cases hpt : processToken t ctx with
    | ok c =>
      rw [hpt] at h
      exact (processToken_stepInv t ctx c hpt).trans (processTokens_stepInv ts c ctx2 h)
    | error e =>
      rw [hpt] at h
      cases h

end

/-! ## Claim C7: no zero-length ranges -/

/-- The non-zero-range condition of invariant (b): style / paragraph / bullet
operations span a strictly positive range (insertions are unconstrained). -/
def rangeOk : Request → Prop
  | .insertText .. => True
  | .updateTextStyle s e _ _ => s < e
  | .updateParagraphStyle s e _ _ => s < e
  | .createParagraphBullets s e _ _ => s < e

theorem rangeOk_of_insert (r : Request) (h : isInsertReq r = true) : rangeOk r := by
  cases r <;> simp_all [isInsertReq, rangeOk]

theorem buildTextStyle_some (s e : Nat) (p : TextStylePayload) (tab : Option String)
    (req : Request) (h : buildUpdateTextStyleRequest s e p tab = some req) :
    req = .updateTextStyle s e tab p ∧ s < e := by
  rw [buildUpdateTextStyleRequest] at h
  split at h
  · cases h
  · injection h with h2
    refine ⟨h2.symm, by omega⟩

theorem buildParaStyle_some (s e : Nat) (t : String) (tab : Option String)
    (req : Request) (h : buildUpdateParagraphStyleRequest s e t tab = some req) :
    req = .updateParagraphStyle s e tab (.namedStyle t) ∧ s < e := by
  rw [buildUpdateParagraphStyleRequest] at h
  split at h
  · cases h
  · injection h with h2
    refine ⟨h2.symm, by omega⟩

theorem mem_finalizeTextRange (tab : Option String) (r : TextRange) (req : Request)
    (h : req ∈ finalizeTextRange tab r) : isInsertReq req = false ∧ rangeOk req := by
  rw [finalizeTextRange] at h
  rcases List.mem_append.mp h with h2 | h2
  · split at h2
    · cases hb : buildUpdateTextStyleRequest r.startIndex r.endIndex
        { bold := r.formatting.bold
          italic := r.formatting.italic
          strikethrough := r.formatting.strikethrough
          fontFamily := if r.formatting.code == some true then some CODE_FONT_FAMILY else none
          foregroundColor := if r.formatting.code == some true then some CODE_TEXT_HEX else none
          backgroundColor :=
            if r.formatting.code == some true then some CODE_BACKGROUND_HEX else none }
        tab with
      | none => rw [hb] at h2; cases h2
      | some q =>
        rw [hb] at h2
        rw [List.mem_singleton] at h2
        obtain ⟨hq, hlt⟩ := buildTextStyle_some _ _ _ _ _ hb
        rw [h2, hq]
        exact ⟨rfl, hlt⟩
    · cases h2
  · split at h2
    · next url _ =>
      split at h2
      · cases hb : buildUpdateTextStyleRequest r.startIndex r.endIndex
          { linkUrl := some url } tab with
        | none => rw [hb] at h2; cases h2
        | some q =>
          rw [hb] at h2
          rw [List.mem_singleton] at h2
          obtain ⟨hq, hlt⟩ := buildTextStyle_some _ _ _ _ _ hb
          rw [h2, hq]
          exact ⟨rfl, hlt⟩
      · cases h2
    · cases h2

theorem mem_finalizeParagraphRange (tab : Option String) (r : ParagraphRange)
    (req : Request) (h : req ∈ finalizeParagraphRange tab r) :
    isInsertReq req = false ∧ rangeOk req := by
  rw [finalizeParagraphRange] at h
  split at h
  · next st _ =>
    cases hb : buildUpdateParagraphStyleRequest r.startIndex r.endIndex st tab with
    | none => rw [hb] at h; cases h
    | some q =>
      rw [hb] at h
      rw [List.mem_singleton] at h
      obtain ⟨hq, hlt⟩ := buildParaStyle_some _ _ _ _ _ hb
      rw [h, hq]
      exact ⟨rfl, hlt⟩
  · cases h

theorem mem_sortByLe {α : Type} (le : α → α → Bool) :
    ∀ (l : List α) (x : α), x ∈ sortByLe le l → x ∈ l := by
  intro l
  induction l with
  | nil => intro x h; cases h
  | cons a as ih =>
    intro x h
    rw [sortByLe] at h
    have hmem : ∀ (b : α) (bs : List α), x ∈ insertLe le b bs → x = b ∨ x ∈ bs := by
      intro b bs
      induction bs with
      | nil => intro h2; rw [insertLe] at h2; simpa using h2
      | cons c cs ih2 =>
        intro h2
        rw [insertLe] at h2
        split at h2
        · rcases List.mem_cons.mp h2 with h3 | h3
          · exact Or.inl h3
          · exact Or.inr h3
        · rcases List.mem_cons.mp h2 with h3 | h3
          · exact Or.inr (List.mem_cons.mpr (Or.inl h3))
          · rcases ih2 h3 with h4 | h4
            · exact Or.inl h4
            · exact Or.inr (List.mem_cons.mpr (Or.inr h4))
    rcases hmem a (sortByLe le as) h with h2 | h2
    · exact List.mem_cons.mpr (Or.inl h2)
    · exact List.mem_cons.mpr (Or.inr (ih x h2))

/-- Valid pending items have a resolved end strictly beyond their start. -/
theorem validListItems_pos (items : List PendingListItem) (i : PendingListItem)
    (h : i ∈ validListItems items) : i.startIndex < i.endIndex.getD 0 := by
  rw [validListItems] at h
  obtain ⟨-, hp⟩ := List.mem_filter.mp h
  cases he : i.endIndex with
  | none => rw [he] at hp; simp at hp
  | some e =>
    rw [he] at hp
    simp only [decide_eq_true_eq] at hp
    simpa [he] using hp

theorem getLast?_mem {α : Type} : ∀ (l : List α) (a : α), l.getLast? = some a → a ∈ l := by
  intro l
  induction l with
  | nil => intro a h; cases h
  | cons x xs ih =>
    intro a h
    cases xs with
    | nil =>
      rw [List.getLast?_singleton] at h
      injection h with h2
      simp [h2]
    | cons y ys =>
      rw [List.getLast?_cons_cons] at h
      exact List.mem_cons.mpr (Or.inr (ih a h))

theorem mergeStep_pos (acc : List MergedListRange) (i : PendingListItem)
    (hacc : ∀ m ∈ acc, m.startIndex < m.endIndex)
    (hi : i.startIndex < i.endIndex.getD 0) :
    ∀ m ∈ mergeStep acc i, m.startIndex < m.endIndex := by
  intro m hm
  rw [mergeStep] at hm
  split at hm
  · next last hlast =>
    split at hm
    · rcases List.mem_append.mp hm with h2 | h2
      · exact hacc m (List.dropLast_subset _ h2)
      · rw [List.mem_singleton] at h2
        have hl := hacc last (getLast?_mem _ _ hlast)
        rw [h2]
        simp only
        omega
    · rcases List.mem_append.mp hm with h2 | h2
      · exact hacc m h2
      · rw [List.mem_singleton] at h2
        rw [h2]
        exact hi
  · rcases List.mem_append.mp hm with h2 | h2
    · exact hacc m h2
    · rw [List.mem_singleton] at h2
      rw [h2]
      exact hi

theorem mergedListRanges_pos (items : List PendingListItem) :
    ∀ m ∈ mergedListRangesOf items, m.startIndex < m.endIndex := by
  rw [mergedListRangesOf]
  have key : ∀ (vs : List PendingListItem) (acc : List MergedListRange),
      (∀ i ∈ vs, i.startIndex < i.endIndex.getD 0) →
      (∀ m ∈ acc, m.startIndex < m.endIndex) →
      ∀ m ∈ vs.foldl mergeStep acc, m.startIndex < m.endIndex := by
    intro vs
    induction vs with
    | nil => intro acc _ hacc; exact hacc
    | cons v vs ih =>
      intro acc hvs hacc
      rw [List.foldl_cons]
      exact ih _ (fun i hi => hvs i (List.mem_cons_of_mem _ hi))
        (mergeStep_pos acc v hacc (hvs v (List.mem_cons_self _ _)))
  exact key _ [] (fun i hi =>
    validListItems_pos items i (mem_sortByLe itemLe _ i hi)) (by simp)

theorem mem_fmtOps_ok (ctx : ConversionContext)
    (hhr : ∀ r ∈ ctx.hrRanges, r.1 < r.2) :
    ∀ req ∈ fmtTextOps ctx ++ fmtParaOps ctx ++ fmtHrOps ctx ++ fmtBulletOps ctx,
      isInsertReq req = false ∧ rangeOk req := by
  intro req hreq
  rcases List.mem_append.mp hreq with h3 | hB
  · rcases List.mem_append.mp h3 with h4 | hH
    · rcases List.mem_append.mp h4 with hT | hP
      · rw [fmtTextOps] at hT
        obtain ⟨l, hl, hreql⟩ := List.mem_flatten.mp hT
        obtain ⟨r, hr, hlr⟩ := List.mem_map.mp hl
        exact mem_finalizeTextRange ctx.tabId r req (hlr ▸ hreql)
      · rw [fmtParaOps] at hP
        obtain ⟨l, hl, hreql⟩ := List.mem_flatten.mp hP
        obtain ⟨r, hr, hlr⟩ := List.mem_map.mp hl
        exact mem_finalizeParagraphRange ctx.tabId r req (hlr ▸ hreql)
    · rw [fmtHrOps] at hH
      obtain ⟨r, hr, hlr⟩ := List.mem_map.mp hH
      rw [← hlr]
      exact ⟨rfl, hhr r hr⟩
  · rw [fmtBulletOps] at hB
    obtain ⟨m, hm, hlr⟩ := List.mem_map.mp hB
    rw [← hlr]
    refine ⟨rfl, ?_⟩
    exact mergedListRanges_pos ctx.pendingListItems m
      (mem_sortByLe mergedGe _ m hm)

/-- CLAIM C7: no zero-length style, paragraph-style or bullet range is ever
emitted: every non-insertion request in the compiler's output spans a
strictly positive range. -/
theorem spec_C7 (tokens : List Token) (st : Nat) (tab : Option String) (flag : Bool)
    (reqs : List Request) (h : convertTokensToRequests tokens st tab flag = .ok reqs) :
    ∀ r ∈ reqs, rangeOk r := by
  rw [convertTokensToRequests, compileContext] at h
  cases hp : processTokens tokens (initialContext st tab flag) with
  | error e => rw [hp] at h; cases h
  | ok ctxF =>
    rw [hp] at h
    injection h with h2
    have hinv := processTokens_stepInv _ _ _ hp
    obtain ⟨added, hadd, hins, -⟩ := hinv.insertExt
    have hinserts : ctxF.insertRequests = added := by
      rw [hadd]
      simp [initialContext]
    have hfmt : ctxF.formatRequests = [] := by
      rw [hinv.formatEq]
      rfl
    have hhr : ∀ r ∈ ctxF.hrRanges, r.1 < r.2 := by
      refine hinv.hrOk ?_
      intro r hr
      simp [initialContext] at hr
    intro r hr
    rw [← h2, finalizeFormatting] at hr
    simp only at hr
    rcases List.mem_append.mp hr with hri | hrf
    · exact rangeOk_of_insert r (hins r (hinserts ▸ hri))
    · rw [hfmt] at hrf
      simp only [List.nil_append] at hrf
      exact (mem_fmtOps_ok ctxF hhr r hrf).2

/-- Witness for C7: the bullet operation of the `"- A\n- B\n- C"` compilation
spans a positive range. -/
theorem spec_C7_witness :
    rangeOk (.createParagraphBullets 1 6 none .bulletDiscCircleSquare) :=
  spec_C7 tokensBulletsABC 1 none false _ convertBulletsABC_eq
    (.createParagraphBullets 1 6 none .bulletDiscCircleSquare) (by decide)

/-! ## Claim C2: cursor discipline -/

mutual

/-- Tokens whose handler is guaranteed to push at least one `insertText`
request in every context: a paragraph close, a fence, a rule, an explicit
break, or a text / inline-code token whose content survives the task-prefix
strip, also nested inside `inline` containers (so heading text and table
cell text qualify). -/
def Token.providesInsert : Token → Bool
  | .paragraph_close => true
  | .fence _ => true
  | .hr => true
  | .softbreak => true
  | .hardbreak => true
  | .text c => decide (c.data.drop ((taskPrefixLen c.data).getD 0) ≠ [])
  | .code_inline c => decide (c.data.drop ((taskPrefixLen c.data).getD 0) ≠ [])
  | .inline children => providesInsertIn children
  | _ => false

/-- Whether a token list contains a (possibly nested) insertion-guaranteeing
token. -/
def providesInsertIn : List Token → Bool
  | [] => false
  | t :: ts => t.providesInsert || providesInsertIn ts

end

/-- A state in which a heading is open: a non-zero heading level and a
paragraph start are recorded, so the next `heading_close` inserts. -/
def HeadState (ctx : ConversionContext) : Prop :=
  (∃ l, ctx.currentHeadingLevel = some l ∧ l ≠ 0) ∧
  ∃ s, ctx.currentParagraphStart = some s

/-- A state in which a list item is open, so the next `list_item_close`
reaches its non-defensive branch and ensures a newline insertion. -/
def ItemState (ctx : ConversionContext) : Prop :=
  ctx.openListItemStack ≠ []

/-- One processing step either yields a non-empty insertion list or keeps
the open-heading / open-item states alive. -/
def StateStep (ctx ctx2 : ConversionContext) : Prop :=
  (HeadState ctx → ctx2.insertRequests ≠ [] ∨ HeadState ctx2) ∧
  (ItemState ctx → ctx2.insertRequests ≠ [] ∨ ItemState ctx2)

theorem lastInsertText_some_ne (ctx : ConversionContext) (t : String)
    (h : lastInsertText ctx = some t) : ctx.insertRequests ≠ [] := by
  intro hemp
  rw [lastInsertText, hemp] at h
  exact Option.noConfusion h

theorem lastEndsNl_ne (ctx : ConversionContext)
    (h : lastInsertEndsWithNewline ctx = true) : ctx.insertRequests ≠ [] := by
  rw [lastInsertEndsWithNewline] at h
  cases hl : lastInsertText ctx with
  | none => rw [hl] at h; cases h
  | some t => exact lastInsertText_some_ne ctx t hl

theorem modifyCurrent_insertRequests (ctx : ConversionContext)
    (f : PendingListItem → PendingListItem) :
    (modifyCurrentOpenListItem ctx f).insertRequests = ctx.insertRequests := by
  rw [modifyCurrentOpenListItem]
  split
  · rfl
  · split <;> rfl

theorem handleParagraphClose_ne (ctx0 : ConversionContext) :
    (handleParagraphClose ctx0).insertRequests ≠ [] := by
  simp only [handleParagraphClose]
  have h1 : (if ! lastInsertEndsWithNewline ctx0 then insertText "\n" ctx0
      else ctx0).insertRequests ≠ [] := by
    split
    · simp [insertText]
    · rename_i hg
      simp at hg
      exact lastEndsNl_ne ctx0 hg
  generalize (if ! lastInsertEndsWithNewline ctx0 then insertText "\n" ctx0
      else ctx0) = c1 at h1 ⊢
  split
  · split <;> split <;>
      first
      | (simpa [modifyCurrent_insertRequests] using h1)
      | exact h1
  · exact h1

theorem handleHorizontalRule_ne (ctx0 : ConversionContext) :
    (handleHorizontalRule ctx0).insertRequests ≠ [] := by
  simp only [handleHorizontalRule]
  simp [insertText]

theorem handleCodeBlockLines_inserts_mono (lines : List String)
    (ctx : ConversionContext) (h : ctx.insertRequests ≠ []) :
    (handleCodeBlockLines lines ctx).insertRequests ≠ [] := by
  obtain ⟨added, hadd, -, -⟩ := (stepInv_handleCodeBlockLines lines ctx).insertExt
  rw [hadd]
  intro hc
  exact h (List.append_eq_nil.mp hc).1

theorem handleCodeBlockToken_ne (content : String) (ctx : ConversionContext) :
    (handleCodeBlockToken content ctx).insertRequests ≠ [] := by
  simp only [handleCodeBlockToken]
  cases hl : codeBlockLinesOf content with
  | nil => exact absurd hl (codeBlockLinesOf_ne_nil content)
  | cons line rest =>
    have hc : (handleCodeBlockLines (line :: rest) ctx).insertRequests ≠ [] := by
      simp only [handleCodeBlockLines]
      apply handleCodeBlockLines_inserts_mono
      simp [insertText]
    split
    · simp [insertText]
    · exact hc

theorem ensureNl_ne (c : ConversionContext) :
    (if ! lastInsertEndsWithNewline c then insertText "\n" c else c).insertRequests ≠ [] := by
  split
  · simp [insertText]
  · rename_i hg
    simp at hg
    exact lastEndsNl_ne c hg

theorem handleListItemClose_cons_ne (ctx0 : ConversionContext)
    (h : ctx0.openListItemStack ≠ []) :
    (handleListItemClose ctx0).insertRequests ≠ [] := by
  obtain ⟨i, rest, hst⟩ := List.exists_cons_of_ne_nil h
  simp only [handleListItemClose, hst]
  exact ensureNl_ne _

theorem handleListItemOpen_itemState (ctx ctx2 : ConversionContext)
    (h : handleListItemOpen ctx = .ok ctx2) : ctx2.openListItemStack ≠ [] := by
  rw [handleListItemOpen] at h
  cases hls : ctx.listStack with
  | nil =>
    rw [hls] at h
    cases h
  | cons cur rest =>
    rw [hls] at h
    injection h with h2
    rw [← h2]
    simp

theorem handleListItemOpen_fields (ctx ctx2 : ConversionContext)
    (h : handleListItemOpen ctx = .ok ctx2) :
    ctx2.currentHeadingLevel = ctx.currentHeadingLevel ∧
    ctx2.currentParagraphStart = ctx.currentParagraphStart := by
  rw [handleListItemOpen] at h
  cases hls : ctx.listStack with
  | nil =>
    rw [hls] at h
    cases h
  | cons cur rest =>
    rw [hls] at h
    injection h with h2
    rw [← h2]
    constructor <;> (split <;> rfl)

theorem handleHeadingClose_stack (ctx : ConversionContext) :
    (handleHeadingClose ctx).openListItemStack = ctx.openListItemStack := by
  simp only [handleHeadingClose]
  split
  · split
    · split <;> rfl
    · rfl
  · rfl

theorem handleHeadingClose_ne_of_headState (ctx : ConversionContext)
    (h : HeadState ctx) : (handleHeadingClose ctx).insertRequests ≠ [] := by
  obtain ⟨⟨l, hl, hl0⟩, s, hs⟩ := h
  simp only [handleHeadingClose, hl, hs]
  rw [if_pos hl0]
  split <;> simp [insertText]

theorem processTokens_inserts_mono (ts : List Token) (ctx ctx2 : ConversionContext)
    (h : processTokens ts ctx = .ok ctx2) (hne : ctx.insertRequests ≠ []) :
    ctx2.insertRequests ≠ [] := by
  obtain ⟨added, hadd, -, -⟩ := (processTokens_stepInv ts ctx ctx2 h).insertExt
  rw [hadd]
  intro hc
  exact hne (List.append_eq_nil.mp hc).1

theorem textEmitPhase_ne (text : String) (ctx : ConversionContext)
    (h : text ≠ "") : (textEmitPhase text ctx).insertRequests ≠ [] := by
  simp only [textEmitPhase]
  rw [if_neg h]
  split <;> simp [insertText]

theorem taskPrefixPhase_fst (c : String) (ctx : ConversionContext) :
    (taskPrefixPhase c ctx).1 = c ∨
    ∃ n, taskPrefixLen c.data = some n ∧
      (taskPrefixPhase c ctx).1 = (⟨c.data.drop n⟩ : String) := by
  simp only [taskPrefixPhase]
  split
  · split
    · split
      · rename_i n htl
        exact Or.inr ⟨n, htl, rfl⟩
      · exact Or.inl rfl
    · exact Or.inl rfl
  · exact Or.inl rfl

theorem handleTextToken_provides_ne (c : String) (ctx : ConversionContext)
    (h : c.data.drop ((taskPrefixLen c.data).getD 0) ≠ []) :
    (handleTextToken c ctx).insertRequests ≠ [] := by
  have hc : c ≠ "" := by
    intro he
    apply h
    rw [he]
    simp
  simp only [handleTextToken]
  rw [if_neg hc]
  rcases taskPrefixPhase_fst c ctx with hfst | ⟨n, htl, hfst⟩
  · rw [hfst]
    exact textEmitPhase_ne c _ hc
  · rw [hfst]
    apply textEmitPhase_ne
    intro he
    apply h
    rw [htl]
    have h2 := congrArg String.data he
    simpa using h2

theorem textEmitPhase_fields (text : String) (ctx : ConversionContext) :
    (textEmitPhase text ctx).currentHeadingLevel = ctx.currentHeadingLevel ∧
    (textEmitPhase text ctx).currentParagraphStart = ctx.currentParagraphStart ∧
    (textEmitPhase text ctx).openListItemStack = ctx.openListItemStack := by
  simp only [textEmitPhase]
  split
  · exact ⟨rfl, rfl, rfl⟩
  · refine ⟨?_, ?_, ?_⟩ <;> (split <;> rfl)

theorem modifyCurrent_fields (ctx : ConversionContext)
    (f : PendingListItem → PendingListItem) :
    (modifyCurrentOpenListItem ctx f).currentHeadingLevel = ctx.currentHeadingLevel ∧
    (modifyCurrentOpenListItem ctx f).currentParagraphStart = ctx.currentParagraphStart ∧
    (modifyCurrentOpenListItem ctx f).openListItemStack = ctx.openListItemStack := by
  rw [modifyCurrentOpenListItem]
  split
  · exact ⟨rfl, rfl, rfl⟩
  · split <;> exact ⟨rfl, rfl, rfl⟩

theorem taskPrefixPhase_fields (c : String) (ctx : ConversionContext) :
    ((taskPrefixPhase c ctx).2).currentHeadingLevel = ctx.currentHeadingLevel ∧
    ((taskPrefixPhase c ctx).2).currentParagraphStart = ctx.currentParagraphStart ∧
    ((taskPrefixPhase c ctx).2).openListItemStack = ctx.openListItemStack := by
  simp only [taskPrefixPhase]
  split
  · split
    · split
      · refine ⟨?_, ?_, ?_⟩
        · rw [(modifyCurrent_fields _ _).1, (modifyCurrent_fields _ _).1]
        · rw [(modifyCurrent_fields _ _).2.1, (modifyCurrent_fields _ _).2.1]
        · rw [(modifyCurrent_fields _ _).2.2, (modifyCurrent_fields _ _).2.2]
      · exact ⟨(modifyCurrent_fields _ _).1, (modifyCurrent_fields _ _).2.1,
          (modifyCurrent_fields _ _).2.2⟩
    · exact ⟨rfl, rfl, rfl⟩
  · exact ⟨rfl, rfl, rfl⟩

theorem handleTextToken_fields (c : String) (ctx : ConversionContext) :
    (handleTextToken c ctx).currentHeadingLevel = ctx.currentHeadingLevel ∧
    (handleTextToken c ctx).currentParagraphStart = ctx.currentParagraphStart ∧
    (handleTextToken c ctx).openListItemStack = ctx.openListItemStack := by
  simp only [handleTextToken]
  split
  · exact ⟨rfl, rfl, rfl⟩
  · refine ⟨?_, ?_, ?_⟩
    · rw [(textEmitPhase_fields _ _).1, (taskPrefixPhase_fields c ctx).1]
    · rw [(textEmitPhase_fields _ _).2.1, (taskPrefixPhase_fields c ctx).2.1]
    · rw [(textEmitPhase_fields _ _).2.2, (taskPrefixPhase_fields c ctx).2.2]

theorem stateStep_refl (ctx : ConversionContext) : StateStep ctx ctx :=
  ⟨fun h => Or.inr h, fun h => Or.inr h⟩

theorem stateStep_of_fields {a b : ConversionContext}
    (h1 : b.currentHeadingLevel = a.currentHeadingLevel)
    (h2 : b.currentParagraphStart = a.currentParagraphStart)
    (h3 : b.openListItemStack = a.openListItemStack) : StateStep a b := by
  constructor
  · intro hh
    right
    obtain ⟨⟨l, hl, hl0⟩, s, hs⟩ := hh
    exact ⟨⟨l, by rw [h1, hl], hl0⟩, s, by rw [h2, hs]⟩
  · intro hi
    right
    show b.openListItemStack ≠ []
    rw [h3]
    exact hi

theorem stateStep_of_ne {a b : ConversionContext}
    (h : b.insertRequests ≠ []) : StateStep a b :=
  ⟨fun _ => Or.inl h, fun _ => Or.inl h⟩

theorem stateStep_trans {a b c : ConversionContext} (h1 : StateStep a b)
    (h2 : StateStep b c) (hmono : b.insertRequests ≠ [] → c.insertRequests ≠ []) :
    StateStep a c := by
  constructor
  · intro hh
    rcases h1.1 hh with hne | hh2
    · exact Or.inl (hmono hne)
    · exact h2.1 hh2
  · intro hi
    rcases h1.2 hi with hne | hi2
    · exact Or.inl (hmono hne)
    · exact h2.2 hi2

theorem stateStep_handleHeadingOpen (level : Nat) (ctx : ConversionContext) :
    StateStep ctx (handleHeadingOpen level ctx) := by
  rw [handleHeadingOpen]
  split
  · rename_i hne
    constructor
    · intro _
      exact Or.inr ⟨⟨level, rfl, hne⟩, ctx.currentIndex, rfl⟩
    · intro hi
      exact Or.inr hi
  · exact stateStep_refl ctx

theorem stateStep_handleHeadingClose (ctx : ConversionContext) :
    StateStep ctx (handleHeadingClose ctx) := by
  constructor
  · intro hh
    exact Or.inl (handleHeadingClose_ne_of_headState ctx hh)
  · intro hi
    right
    show (handleHeadingClose ctx).openListItemStack ≠ []
    rw [handleHeadingClose_stack]
    exact hi

theorem stateStep_handleParagraphOpen (ctx : ConversionContext) :
    StateStep ctx (handleParagraphOpen ctx) := by
  rw [handleParagraphOpen]
  split
  · exact ⟨fun hh => Or.inr ⟨hh.1, ctx.currentIndex, rfl⟩, fun hi => Or.inr hi⟩
  · exact stateStep_refl ctx

theorem stateStep_handleTextToken (c : String) (ctx : ConversionContext) :
    StateStep ctx (handleTextToken c ctx) :=
  stateStep_of_fields (handleTextToken_fields c ctx).1
    (handleTextToken_fields c ctx).2.1 (handleTextToken_fields c ctx).2.2

theorem stateStep_handleCodeInlineToken (c : String) (ctx : ConversionContext) :
    StateStep ctx (handleCodeInlineToken c ctx) := by
  have h := handleTextToken_fields c
    { ctx with formattingStack := { code := some true } :: ctx.formattingStack }
  exact stateStep_of_fields h.1 h.2.1 h.2.2

theorem stateStep_handleListItemOpen (ctx ctx2 : ConversionContext)
    (h : handleListItemOpen ctx = .ok ctx2) : StateStep ctx ctx2 := by
  constructor
  · intro hh
    right
    obtain ⟨hf1, hf2⟩ := handleListItemOpen_fields ctx ctx2 h
    obtain ⟨⟨l, hl, hl0⟩, s, hs⟩ := hh
    exact ⟨⟨l, by rw [hf1, hl], hl0⟩, s, by rw [hf2, hs]⟩
  · intro _
    exact Or.inr (handleListItemOpen_itemState ctx ctx2 h)

theorem stateStep_handleListItemClose (ctx : ConversionContext) :
    StateStep ctx (handleListItemClose ctx) := by
  cases hst : ctx.openListItemStack with
  | nil =>
    rw [handleListItemClose_empty ctx hst]
    exact stateStep_refl ctx
  | cons i rest =>
    refine stateStep_of_ne (handleListItemClose_cons_ne ctx ?_)
    rw [hst]
    simp

mutual

/-- Every successful step preserves the open-heading / open-item witness
states or has already produced an insertion. -/
theorem processToken_stateInv : ∀ (t : Token) (ctx ctx2 : ConversionContext),
    processToken t ctx = .ok ctx2 → StateStep ctx ctx2
  | .heading_open level, ctx, ctx2, h => by
    injection h with h2
    exact h2 ▸ stateStep_handleHeadingOpen level ctx
  | .heading_close, ctx, ctx2, h => by
    injection h with h2
    exact h2 ▸ stateStep_handleHeadingClose ctx
  | .paragraph_open, ctx, ctx2, h => by
    injection h with h2
    exact h2 ▸ stateStep_handleParagraphOpen ctx
  | .paragraph_close, ctx, ctx2, h => by
    injection h with h2
    exact h2 ▸ stateStep_of_ne (handleParagraphClose_ne ctx)
  | .text content, ctx, ctx2, h => by
    injection h with h2
    exact h2 ▸ stateStep_handleTextToken content ctx
  | .code_inline content, ctx, ctx2, h => by
    injection h with h2
    exact h2 ▸ stateStep_handleCodeInlineToken content ctx
  | .strong_open, ctx, ctx2, h => by
    injection h with h2
    exact h2 ▸ stateStep_of_fields rfl rfl rfl
  | .strong_close, ctx, ctx2, h => by
    injection h with h2
    exact h2 ▸ stateStep_of_fields rfl rfl rfl
  | .em_open, ctx, ctx2, h => by
    injection h with h2
    exact h2 ▸ stateStep_of_fields rfl rfl rfl
  | .em_close, ctx, ctx2, h => by
    injection h with h2
    exact h2 ▸ stateStep_of_fields rfl rfl rfl
  | .s_open, ctx, ctx2, h => by
    injection h with h2
    exact h2 ▸ stateStep_of_fields rfl rfl rfl
  | .s_close, ctx, ctx2, h => by
    injection h with h2
    exact h2 ▸ stateStep_of_fields rfl rfl rfl
  | .link_open href, ctx, ctx2, h => by
    injection h with h2
    refine h2 ▸ ?_
    cases href with
    | none => exact stateStep_refl _
    | some u =>
      simp only
      split
      · exact stateStep_of_fields rfl rfl rfl
      · exact stateStep_refl _
  | .link_close, ctx, ctx2, h => by
    injection h with h2
    exact h2 ▸ stateStep_of_fields rfl rfl rfl
  | .bullet_list_open, ctx, ctx2, h => by
    injection h with h2
    exact h2 ▸ stateStep_of_fields rfl rfl rfl
  | .bullet_list_close, ctx, ctx2, h => by
    injection h with h2
    exact h2 ▸ stateStep_of_fields rfl rfl rfl
  | .ordered_list_open, ctx, ctx2, h => by
    injection h with h2
    exact h2 ▸ stateStep_of_fields rfl rfl rfl
  | .ordered_list_close, ctx, ctx2, h => by
    injection h with h2
    exact h2 ▸ stateStep_of_fields rfl rfl rfl
  | .list_item_open, ctx, ctx2, h => stateStep_handleListItemOpen ctx ctx2 h
  | .list_item_close, ctx, ctx2, h => by
    injection h with h2
    exact h2 ▸ stateStep_handleListItemClose ctx
  | .softbreak, ctx, ctx2, h => by
    injection h with h2
    exact h2 ▸ stateStep_of_ne (by simp [insertText])
  | .hardbreak, ctx, ctx2, h => by
    injection h with h2
    exact h2 ▸ stateStep_of_ne (by simp [insertText])
  | .inline children, ctx, ctx2, h => processTokens_stateInv children ctx ctx2 h
  | .fence content, ctx, ctx2, h => by
    injection h with h2
    exact h2 ▸ stateStep_of_ne (handleCodeBlockToken_ne content ctx)
  | .hr, ctx, ctx2, h => by
    injection h with h2
    exact h2 ▸ stateStep_of_ne (handleHorizontalRule_ne ctx)
  | .skipped, ctx, ctx2, h => by
    injection h with h2
    exact h2 ▸ stateStep_refl ctx

/-- The witness-state preservation for whole token sequences. -/
theorem processTokens_stateInv : ∀ (ts : List Token) (ctx ctx2 : ConversionContext),
    processTokens ts ctx = .ok ctx2 → StateStep ctx ctx2
  | [], ctx, ctx2, h => by
    injection h with h2
    exact h2 ▸ stateStep_refl ctx
  | t :: ts, ctx, ctx2, h => by
    rw [processTokens] at h
    cases hpt : processToken t ctx with
    | ok c =>
      rw [hpt] at h
      exact stateStep_trans (processToken_stateInv t ctx c hpt)
        (processTokens_stateInv ts c ctx2 h) (processTokens_inserts_mono ts c ctx2 h)
    | error e =>
      rw [hpt] at h
      cases h

end

mutual

/-- An insertion-guaranteeing token leaves a non-empty insertion list. -/
theorem processToken_provides_ne : ∀ (t : Token) (ctx ctx2 : ConversionContext),
    processToken t ctx = .ok ctx2 → t.providesInsert = true →
    ctx2.insertRequests ≠ []
  | .heading_open _, _, _, _, hp => (Bool.false_ne_true hp).elim
  | .heading_close, _, _, _, hp => (Bool.false_ne_true hp).elim
  | .paragraph_open, _, _, _, hp => (Bool.false_ne_true hp).elim
  | .paragraph_close, ctx, ctx2, h, _ => by
    injection h with h2
    exact h2 ▸ handleParagraphClose_ne ctx
  | .text content, ctx, ctx2, h, hp => by
    injection h with h2
    rw [← h2]
    apply handleTextToken_provides_ne
    simpa [Token.providesInsert] using hp
  | .code_inline content, ctx, ctx2, h, hp => by
    injection h with h2
    rw [← h2]
    exact handleTextToken_provides_ne content
      { ctx with formattingStack := { code := some true } :: ctx.formattingStack }
      (by simpa [Token.providesInsert] using hp)
  | .strong_open, _, _, _, hp => (Bool.false_ne_true hp).elim
  | .strong_close, _, _, _, hp => (Bool.false_ne_true hp).elim
  | .em_open, _, _, _, hp => (Bool.false_ne_true hp).elim
  | .em_close, _, _, _, hp => (Bool.false_ne_true hp).elim
  | .s_open, _, _, _, hp => (Bool.false_ne_true hp).elim
  | .s_close, _, _, _, hp => (Bool.false_ne_true hp).elim
  | .link_open _, _, _, _, hp => (Bool.false_ne_true hp).elim
  | .link_close, _, _, _, hp => (Bool.false_ne_true hp).elim
  | .bullet_list_open, _, _, _, hp => (Bool.false_ne_true hp).elim
  | .bullet_list_close, _, _, _, hp => (Bool.false_ne_true hp).elim
  | .ordered_list_open, _, _, _, hp => (Bool.false_ne_true hp).elim
  | .ordered_list_close, _, _, _, hp => (Bool.false_ne_true hp).elim
  | .list_item_open, _, _, _, hp => (Bool.false_ne_true hp).elim
  | .list_item_close, _, _, _, hp => (Bool.false_ne_true hp).elim
  | .softbreak, ctx, ctx2, h, _ => by
    injection h with h2
    rw [← h2]
    simp [insertText]
  | .hardbreak, ctx, ctx2, h, _ => by
    injection h with h2
    rw [← h2]
    simp [insertText]
  | .inline children, ctx, ctx2, h, hp =>
    processTokens_provides_ne children ctx ctx2 h
      (by simpa [Token.providesInsert] using hp)
  | .fence content, ctx, ctx2, h, _ => by
    injection h with h2
    exact h2 ▸ handleCodeBlockToken_ne content ctx
  | .hr, ctx, ctx2, h, _ => by
    injection h with h2
    exact h2 ▸ handleHorizontalRule_ne ctx
  | .skipped, _, _, _, hp => (Bool.false_ne_true hp).elim

/-- A stream holding an insertion-guaranteeing token leaves a non-empty
insertion list. -/
theorem processTokens_provides_ne : ∀ (ts : List Token) (ctx ctx2 : ConversionContext),
    processTokens ts ctx = .ok ctx2 → providesInsertIn ts = true →
    ctx2.insertRequests ≠ []
  | [], _, _, _, hp => (Bool.false_ne_true hp).elim
  | t :: ts, ctx, ctx2, h, hp => by
    rw [processTokens] at h
    cases hpt : processToken t ctx with
    | error e =>
      rw [hpt] at h
      cases h
    | ok c =>
      rw [hpt] at h
      rw [providesInsertIn] at hp
      cases hp1 : t.providesInsert with
      | true =>
        exact processTokens_inserts_mono ts c ctx2 h
          (processToken_provides_ne t ctx c hpt hp1)
      | false =>
        rw [hp1, Bool.false_or] at hp
        exact processTokens_provides_ne ts c ctx2 h hp

end

/-- A paragraph-style operation carrying the document-title named style. -/
def isTitleOp : Request → Bool
  | .updateParagraphStyle _ _ _ (.namedStyle t) => t == "TITLE"
  | _ => false

/-- A paragraph-style operation carrying the level-1 heading named style. -/
def isHeading1Op : Request → Bool
  | .updateParagraphStyle _ _ _ (.namedStyle t) => t == "HEADING_1"
  | _ => false

/-- The request list of the `"# T\n\n# U"` compilation (title flag on). -/
def twoHeadingsReqs : List Request :=
  [.insertText 1 none "T", .insertText 2 none "\n",
   .insertText 3 none "U", .insertText 4 none "\n",
   .updateParagraphStyle 1 2 none (.namedStyle "TITLE"),
   .updateParagraphStyle 3 4 none (.namedStyle "HEADING_1")]

theorem isTitleOp_insert (r : Request) (h : isInsertReq r = true) :
    isTitleOp r = false := by
  cases r <;> simp_all [isInsertReq, isTitleOp]

theorem buildText_not_title (s e : Nat) (p : TextStylePayload) (tab : Option String)
    (req : Request) (h : buildUpdateTextStyleRequest s e p tab = some req) :
    isTitleOp req = false := by
  obtain ⟨hreq, -⟩ := buildTextStyle_some s e p tab req h
  rw [hreq]
  rfl

theorem mem_finalizeTextRange_not_title (tab : Option String) (rng : TextRange)
    (req : Request) (h : req ∈ finalizeTextRange tab rng) : isTitleOp req = false := by
  rw [finalizeTextRange] at h
  rcases List.mem_append.mp h with h2 | h2
  · split at h2
    · split at h2
      · rename_i r hb
        rw [List.mem_singleton] at h2
        subst h2
        exact buildText_not_title _ _ _ _ _ hb
      · cases h2
    · cases h2
  · split at h2
    · split at h2
      · split at h2
        · rename_i r hb
          rw [List.mem_singleton] at h2
          subst h2
          exact buildText_not_title _ _ _ _ _ hb
        · cases h2
      · cases h2
    · cases h2

theorem filter_false_nil {α : Type} (p : α → Bool) : ∀ (l : List α),
    (∀ a ∈ l, p a = false) → l.filter p = []
  | [], _ => rfl
  | a :: l, h => by
    rw [List.filter_cons, h a (List.mem_cons_self _ _)]
    simp only [Bool.false_eq_true, if_false]
    exact filter_false_nil p l (fun x hx => h x (List.mem_cons_of_mem _ hx))

/-- At most one title operation per TITLE paragraph range. -/
theorem titleOps_bound (tab : Option String) : ∀ (rs : List ParagraphRange),
    ((rs.map (finalizeParagraphRange tab)).flatten.filter isTitleOp).length ≤ titleCount rs
  | [] => Nat.le_refl 0
  | r :: rs => by
    rw [List.map_cons, List.flatten_cons, List.filter_append, List.length_append]
    have h2 := titleOps_bound tab rs
    have hc : titleCount (r :: rs) =
        (if r.namedStyleType == some "TITLE" then 1 else 0) + titleCount rs := by
      rw [titleCount, titleCount, List.filter_cons]
      split <;> simp_all <;> omega
    rw [hc]
    have h1 : ((finalizeParagraphRange tab r).filter isTitleOp).length ≤
        (if r.namedStyleType == some "TITLE" then 1 else 0) := by
      rw [finalizeParagraphRange]
      cases hn : r.namedStyleType with
      | none => simp
      | some styleType =>
        cases hb : buildUpdateParagraphStyleRequest r.startIndex r.endIndex styleType tab with
        | none => simp [hb]
        | some req =>
          obtain ⟨hreq, -⟩ := buildParaStyle_some _ _ _ _ _ hb
          subst hreq
          by_cases ht : styleType = "TITLE"
          · subst ht
            simp [hb, isTitleOp]
          · simp [hb, isTitleOp, ht]
    exact Nat.add_le_add h1 h2

theorem titleBound_le_one (c : ConversionContext) : titleBound c ≤ 1 := by
  rw [titleBound]
  split <;> simp

/-- CLAIM C4: with the first-heading-as-title option on, the document-title
named style replaces the heading style exactly once — a heading closed after
the title has been consumed keeps its ordinary `HEADING_level` style, every
compilation output carries at most one title operation (and none with the
flag off), and `"# T\n\n# U"` with the flag on yields exactly one TITLE and
exactly one HEADING_1 paragraph-style operation. -/
theorem spec_C4 :
    (∀ (ctx : ConversionContext) (level start : Nat),
      ctx.currentHeadingLevel = some level → ctx.currentParagraphStart = some start →
      level ≠ 0 → ctx.titleConsumed = true →
      (handleHeadingClose ctx).paragraphRanges = ctx.paragraphRanges ++
        [{ startIndex := start, endIndex := ctx.currentIndex,
           namedStyleType := some ("HEADING_" ++ toString level) }]) ∧
    (∀ (tokens : List Token) (st : Nat) (tab : Option String) (flag : Bool)
      (reqs : List Request), convertTokensToRequests tokens st tab flag = .ok reqs →
      (reqs.filter isTitleOp).length ≤ 1 ∧
      (flag = false → (reqs.filter isTitleOp).length = 0)) ∧
    (convertTokensToRequests tokensTwoHeadings 1 none true = .ok twoHeadingsReqs ∧
     (twoHeadingsReqs.filter isTitleOp).length = 1 ∧
     (twoHeadingsReqs.filter isHeading1Op).length = 1) := by
  refine ⟨?_, ?_, convertTwoHeadings_eq, by decide, by decide⟩
  · intro ctx level start hlv hst hlvne htc
    simp [handleHeadingClose, hlv, hst, htc, hlvne, insertText]
  · intro tokens st tab flag reqs hconv
    rw [convertTokensToRequests, compileContext] at hconv
    cases hp : processTokens tokens (initialContext st tab flag) with
    | error e => rw [hp] at hconv; cases hconv
    | ok c =>
      rw [hp] at hconv
      injection hconv with hreqs
      have hinv := processTokens_stepInv _ _ _ hp
      obtain ⟨added, hadd, hins, -⟩ := hinv.insertExt
      have hinserts : c.insertRequests = added := by
        rw [hadd]
        simp [initialContext]
      have hfmt : c.formatRequests = [] := by
        rw [hinv.formatEq]
        rfl
      have htitle : titleCount c.paragraphRanges ≤ titleBound c := by
        refine hinv.titleInv ?_
        simp [initialContext, titleCount, titleBound]
      have hfr : (finalizeFormatting c).insertRequests = c.insertRequests := rfl
      have hff : (finalizeFormatting c).formatRequests =
          c.formatRequests ++ fmtTextOps c ++ fmtParaOps c ++ fmtHrOps c ++
            fmtBulletOps c := rfl
      rw [← hreqs, hfr, hff, hfmt]
      have hA : c.insertRequests.filter isTitleOp = [] :=
        filter_false_nil _ _ (fun r hr => isTitleOp_insert r (hins r (hinserts ▸ hr)))
      have hT : (fmtTextOps c).filter isTitleOp = [] := by
        apply filter_false_nil
        intro r hr
        rw [fmtTextOps] at hr
        obtain ⟨l, hl, hrl⟩ := List.mem_flatten.mp hr
        obtain ⟨rng, hrng, hlr⟩ := List.mem_map.mp hl
        exact mem_finalizeTextRange_not_title c.tabId rng r (hlr ▸ hrl)
      have hH : (fmtHrOps c).filter isTitleOp = [] := by
        apply filter_false_nil
        intro r hr
        rw [fmtHrOps] at hr
        obtain ⟨x, hx, hxr⟩ := List.mem_map.mp hr
        rw [← hxr]
        rfl
      have hB : (fmtBulletOps c).filter isTitleOp = [] := by
        apply filter_false_nil
        intro r hr
        rw [fmtBulletOps] at hr
        obtain ⟨m, hm, hmr⟩ := List.mem_map.mp hr
        rw [← hmr]
        rfl
      have hPP : ((fmtParaOps c).filter isTitleOp).length ≤ titleCount c.paragraphRanges := by
        rw [fmtParaOps]
        exact titleOps_bound c.tabId c.paragraphRanges
      have hb1 := titleBound_le_one c
      simp only [List.filter_append, hA, hT, hH, hB, List.filter_nil, List.nil_append,
        List.append_nil, List.length_append, List.length_nil]
      constructor
      · omega
      · intro hflag
        have hb0 : titleBound c = 0 := by
          rw [titleBound, hinv.flagEq]
          simp [initialContext, hflag]
        omega

/-- The state of the two-headings example just before the second heading
close: title consumed, heading level 1 open at paragraph start 3. -/
def ctxHd1Second : ConversionContext :=
  { ctxHd1 with
    currentHeadingLevel := some 1
    currentParagraphStart := some 3 }

/-- Witness for C4: closing the second `# U` heading of the two-headings
example (title already consumed, cursor 3) appends an ordinary HEADING_1
range, and the compiled output of that example holds at most one title
operation. -/
theorem spec_C4_witness :
    (handleHeadingClose ctxHd1Second).paragraphRanges =
      ctxHd1.paragraphRanges ++
        [{ startIndex := 3, endIndex := 3, namedStyleType := some "HEADING_1" }] ∧
    (twoHeadingsReqs.filter isTitleOp).length ≤ 1 := by
  constructor
  · rw [spec_C4.1 ctxHd1Second 1 3 rfl rfl (by decide) rfl]
    decide
  · exact (spec_C4.2.1 tokensTwoHeadings 1 none true twoHeadingsReqs
      convertTwoHeadings_eq).1

/-! ## Claim C1: bullet merging and emission order -/

/-- Start offset of a bullet-range request. -/
def bulletStartOf : Request → Nat
  | .createParagraphBullets s _ _ _ => s
  | _ => 0

/-- End offset of a bullet-range request. -/
def bulletEndOf : Request → Nat
  | .createParagraphBullets _ e _ _ => e
  | _ => 0

/-- The request list of the `"- A\n- B\n- C"` compilation. -/
def abcReqs : List Request :=
  [.insertText 1 none "A", .insertText 2 none "\n",
   .insertText 3 none "B", .insertText 4 none "\n",
   .insertText 5 none "C", .insertText 6 none "\n",
   .createParagraphBullets 1 6 none .bulletDiscCircleSquare]

/-- The request list of the `"- A\n\n**X**\n\n- B"` compilation. -/
def intReqs : List Request :=
  [.insertText 1 none "A", .insertText 2 none "\n",
   .insertText 3 none "X", .insertText 4 none "\n",
   .insertText 5 none "B", .insertText 6 none "\n",
   .updateTextStyle 3 4 none { bold := some true },
   .createParagraphBullets 5 6 none .bulletDiscCircleSquare,
   .createParagraphBullets 1 2 none .bulletDiscCircleSquare]

theorem mergeStep_length_merge (acc : List MergedListRange) (item : PendingListItem)
    (last : MergedListRange) (hlast : acc.getLast? = some last)
    (hp : last.bulletPreset = item.bulletPreset)
    (hs : item.startIndex ≤ last.endIndex + 1) :
    (mergeStep acc item).length = acc.length := by
  have hne : acc ≠ [] := by
    intro h
    rw [h] at hlast
    cases hlast
  have hpos : 0 < acc.length := List.length_pos.mpr hne
  simp only [mergeStep, hlast]
  rw [if_pos (by simp [hp, hs])]
  rw [List.length_append, List.length_dropLast]
  simp
  omega

theorem mergeStep_length_nomerge (acc : List MergedListRange) (item : PendingListItem)
    (last : MergedListRange) (hlast : acc.getLast? = some last)
    (h : ¬(last.bulletPreset = item.bulletPreset ∧ item.startIndex ≤ last.endIndex + 1)) :
    (mergeStep acc item).length = acc.length + 1 := by
  simp only [mergeStep, hlast]
  rw [if_neg]
  · simp
  · simp only [Bool.and_eq_true, beq_iff_eq, decide_eq_true_eq]
    exact h

theorem insertLe_length {α : Type} (le : α → α → Bool) (a : α) : ∀ (l : List α),
    (insertLe le a l).length = l.length + 1
  | [] => rfl
  | b :: bs => by
    rw [insertLe]
    split
    · rfl
    · rw [List.length_cons, insertLe_length le a bs, List.length_cons]

theorem sortByLe_length {α : Type} (le : α → α → Bool) : ∀ (l : List α),
    (sortByLe le l).length = l.length
  | [] => rfl
  | a :: l => by
    rw [sortByLe, insertLe_length, sortByLe_length le l, List.length_cons]

theorem mem_insertLe {α : Type} (le : α → α → Bool) (a x : α) : ∀ (l : List α),
    x ∈ insertLe le a l → x = a ∨ x ∈ l
  | [], h => by
    rw [insertLe] at h
    exact Or.inl (List.mem_singleton.mp h)
  | b :: bs, h => by
    rw [insertLe] at h
    split at h
    · rcases List.mem_cons.mp h with h | h
      · exact Or.inl h
      · exact Or.inr h
    · rcases List.mem_cons.mp h with h | h
      · exact Or.inr (h ▸ List.mem_cons_self _ _)
      · rcases mem_insertLe le a x bs h with h | h
        · exact Or.inl h
        · exact Or.inr (List.mem_cons_of_mem _ h)

theorem pairwise_insertLe {α : Type} (le : α → α → Bool)
    (htot : ∀ a b, le a b = false → le b a = true)
    (htrans : ∀ a b c, le a b = true → le b c = true → le a c = true)
    (a : α) : ∀ (l : List α), List.Pairwise (fun x y => le x y = true) l →
      List.Pairwise (fun x y => le x y = true) (insertLe le a l)
  | [], _ => by
    rw [insertLe]
    exact List.pairwise_singleton _ _
  | b :: bs, hp => by
    rw [insertLe]
    rcases List.pairwise_cons.mp hp with ⟨hb, hbs⟩
    split
    · rename_i hab
      refine List.pairwise_cons.mpr ⟨?_, hp⟩
      intro x hx
      rcases List.mem_cons.mp hx with h | h
      · rw [h]
        exact hab
      · exact htrans a b x hab (hb x h)
    · rename_i hab
      have hab2 : le a b = false := by
        revert hab
        cases le a b <;> simp
      refine List.pairwise_cons.mpr ⟨?_, pairwise_insertLe le htot htrans a bs hbs⟩
      intro x hx
      rcases mem_insertLe le a x bs hx with h | h
      · rw [h]
        exact htot a b hab2
      · exact hb x h

theorem pairwise_sortByLe {α : Type} (le : α → α → Bool)
    (htot : ∀ a b, le a b = false → le b a = true)
    (htrans : ∀ a b c, le a b = true → le b c = true → le a c = true) :
    ∀ (l : List α), List.Pairwise (fun x y => le x y = true) (sortByLe le l)
  | [] => List.Pairwise.nil
  | a :: l => pairwise_insertLe le htot htrans a _ (pairwise_sortByLe le htot htrans l)

theorem mergedGe_total (a b : MergedListRange) :
    mergedGe a b = false → mergedGe b a = true := by
  simp [mergedGe]
  omega

theorem mergedGe_trans (a b c : MergedListRange) :
    mergedGe a b = true → mergedGe b c = true → mergedGe a c = true := by
  simp [mergedGe]
  omega

/-- CLAIM C1: with the previous merged range in hand, a pending item extends
it (adds no new merged range) exactly when the presets agree and the item
starts at or before the previous end plus one, and otherwise opens one new
range; the finalization emits exactly one bullet operation per merged range
and lists them in descending start-offset order; `"- A\n- B\n- C"` compiles
to exactly one bullet operation and `"- A\n\n**X**\n\n- B"` to exactly two,
neither covering the interposed paragraph's offsets 3–4. -/
theorem spec_C1 :
    (∀ (acc : List MergedListRange) (item : PendingListItem) (last : MergedListRange),
      acc.getLast? = some last →
      (((mergeStep acc item).length = acc.length ↔
        (last.bulletPreset = item.bulletPreset ∧
         item.startIndex ≤ last.endIndex + 1)) ∧
       ((mergeStep acc item).length = acc.length ∨
        (mergeStep acc item).length = acc.length + 1))) ∧
    (∀ ctx : ConversionContext,
      (fmtBulletOps ctx).length = (mergedListRangesOf ctx.pendingListItems).length ∧
      List.Pairwise (fun r1 r2 => bulletStartOf r2 ≤ bulletStartOf r1) (fmtBulletOps ctx)) ∧
    (convertTokensToRequests tokensBulletsABC 1 none false = .ok abcReqs ∧
     (abcReqs.filter isBulletReq).length = 1) ∧
    (convertTokensToRequests tokensBulletsInterposed 1 none false = .ok intReqs ∧
     (intReqs.filter isBulletReq).length = 2 ∧
     ∀ r ∈ intReqs.filter isBulletReq, bulletEndOf r ≤ 3 ∨ 4 ≤ bulletStartOf r) := by
  refine ⟨?_, ?_, ⟨convertBulletsABC_eq, by decide⟩,
    convertBulletsInterposed_eq, by decide, by decide⟩
  · intro acc item last hlast
    constructor
    · constructor
      · intro hlen
        by_contra hc
        have h2 := mergeStep_length_nomerge acc item last hlast hc
        omega
      · intro hc
        exact mergeStep_length_merge acc item last hlast hc.1 hc.2
    · by_cases hc : last.bulletPreset = item.bulletPreset ∧
        item.startIndex ≤ last.endIndex + 1
      · exact Or.inl (mergeStep_length_merge acc item last hlast hc.1 hc.2)
      · exact Or.inr (mergeStep_length_nomerge acc item last hlast hc)
  · intro ctx
    constructor
    · rw [fmtBulletOps, List.length_map, sortedMergedOf, sortByLe_length]
    · have hs := pairwise_sortByLe mergedGe mergedGe_total mergedGe_trans
        (mergedListRangesOf ctx.pendingListItems)
      rw [fmtBulletOps, List.pairwise_map, sortedMergedOf]
      refine hs.imp ?_
      intro a b h
      simp only [mergedGe, decide_eq_true_eq] at h
      simpa [bulletStartOf] using h

/-- The merged bullet range `[1,2)` with the disc preset. -/
def mergedOneTwo : MergedListRange :=
  { startIndex := 1
    endIndex := 2
    bulletPreset := .bulletDiscCircleSquare }

/-- Witness for C1: an adjacent same-preset item extends the single merged
range `[1,2)` without adding a new one, and the finalization of the
`"- A\n- B\n- C"` state emits one bullet operation per merged range. -/
theorem spec_C1_witness :
    (mergeStep [mergedOneTwo] (pendingItem 3 4 .bulletDiscCircleSquare)).length = 1 ∧
    (fmtBulletOps ctxABC4).length = (mergedListRangesOf ctxABC4.pendingListItems).length := by
  constructor
  · exact (spec_C1.1 [mergedOneTwo]
      (pendingItem 3 4 .bulletDiscCircleSquare) mergedOneTwo (by decide)).1.mpr (by decide)
  · exact (spec_C1.2.1 ctxABC4).1
